import Mathlib

/-!
LinearMulticlassMachine.

A shallow embedding of `src/shogun/machine/LinearMulticlassMachine.h`: the training loop
`train_machine`, the subset discipline on the feature object and on the binary label
buffer, and the registry `m_machines` of cloned submodels.

Shared pointers are modelled by value, except in the part on the learner objects, where
`m_machine` and the registry entries are addresses into a store of objects.  Inside `train_machine` the argument `data` and the
member `m_features` point to the same object, so the model keeps one copy (`m_features`) and
hands that copy to the base learner.  The decomposition strategy and the base learner are
external collaborators; they are modelled by a state type and a record of operations.  The
base learner observes the feature and label views it is given and does not change them; the
strategy rewrites the values of the binary label buffer and does not touch its subset stack.
-/

namespace shogun

/-- Exceptions that can leave a call.  In the source they are all `ShogunException`; the
constructors follow the classes the specification distinguishes. -/
inductive ShogunException where
  /-- raised by `require(...)` and `error(...)` -/
  | configuration (msg : String)
  /-- raised by a failed checked cast `as<T>()` -/
  | type_error
  /-- raised when a subset is removed from an empty subset stack -/
  | invariant_violation
  /-- raised by the training call of the base learner -/
  | base_learner (code : Nat)
  deriving DecidableEq, Repr

/-- Result of a call on an object with state `σ`. -/
inductive Outcome (σ α : Type) where
  /-- the call returned `a` and left the object in state `s` -/
  | ret (a : α) (s : σ)
  /-- an exception propagated out of the call; `s` is the state left behind -/
  | raised (e : ShogunException) (s : σ)
  /-- a null `shared_ptr` was dereferenced: undefined behaviour in C++ -/
  | null_deref
  /-- the `while` loop did not finish within the given number of loop tests -/
  | no_fuel
  deriving DecidableEq, Repr

/-- Sequencing of calls: an exception, a null dereference or exhausted fuel ends the run. -/
def Outcome.bind {σ α β : Type} (x : Outcome σ α) (k : α → σ → Outcome σ β) : Outcome σ β :=
  match x with
  | .ret a s => k a s
  | .raised e s => .raised e s
  | .null_deref => .null_deref
  | .no_fuel => .no_fuel

/-- Modelled from the spec: the subset stack behind `add_subset` / `remove_subset` of the
feature and label classes, whose code is not in the header.  Pushing narrows the view to the
rows named by the subset, read against the rows visible at that moment; popping removes the
most recent narrowing; popping with nothing pushed is an invariant violation.  The head of
the list is the most recently pushed subset. -/
structure SubsetStack where
  subsets : List (List Nat)
  deriving DecidableEq, Repr

namespace SubsetStack

def add_subset (st : SubsetStack) (subset : List Nat) : SubsetStack :=
  ⟨subset :: st.subsets⟩

def remove_subset (st : SubsetStack) : Option SubsetStack :=
  match st.subsets with
  | [] => none
  | _ :: rest => some ⟨rest⟩

/-- Number of visible rows over `base` underlying rows. -/
def get_size (st : SubsetStack) (base : Nat) : Nat :=
  match st.subsets with
  | [] => base
  | s :: _ => s.length

/-- Translate a visible row index to an index of the underlying storage. -/
def convert : List (List Nat) → Nat → Option Nat
  | [], i => some i
  | s :: rest, i =>
    match s[i]? with
    | none => none
    | some j => convert rest j

def subset_idx_conversion (st : SubsetStack) (i : Nat) : Option Nat :=
  convert st.subsets i

end SubsetStack

/-- Modelled from the spec: `DotFeatures`, a feature matrix with a subset stack (the class
is only forward declared in the header).  `Row` is the type of one feature vector. -/
structure DotFeatures (Row : Type) where
  feature_matrix : List Row
  m_subset_stack : SubsetStack
  deriving DecidableEq, Repr

namespace DotFeatures
variable {Row : Type}

def get_num_vectors (f : DotFeatures Row) : Nat :=
  f.m_subset_stack.get_size f.feature_matrix.length

def add_subset (f : DotFeatures Row) (subset : List Nat) : DotFeatures Row :=
  { f with m_subset_stack := f.m_subset_stack.add_subset subset }

def remove_subset (f : DotFeatures Row) : Option (DotFeatures Row) :=
  match f.m_subset_stack.remove_subset with
  | none => none
  | some st => some { f with m_subset_stack := st }

/-- Underlying row behind visible row `i`. -/
def get_feature_vector (f : DotFeatures Row) (i : Nat) : Option Row :=
  match f.m_subset_stack.subset_idx_conversion i with
  | none => none
  | some j => f.feature_matrix[j]?

end DotFeatures

/-- Modelled from the spec: the argument type `Features` of `train_machine`; `as<DotFeatures>()`
succeeds on a dot-product capable object and raises otherwise. -/
inductive Features (Row : Type) where
  | dot (f : DotFeatures Row)
  | other
  deriving DecidableEq, Repr

def Features.as_DotFeatures {Row : Type} : Features Row → Option (DotFeatures Row)
  | .dot f => some f
  | .other => none

/-- Modelled from the spec: `BinaryLabels`, a two-valued label array with a subset stack. -/
structure BinaryLabels where
  m_labels : List Int
  m_subset_stack : SubsetStack
  deriving DecidableEq, Repr

namespace BinaryLabels

/-- The constructor `BinaryLabels(n)`: a fresh buffer of `n` labels, nothing pushed. -/
def sized (n : Nat) : BinaryLabels :=
  ⟨List.replicate n 0, ⟨[]⟩⟩

def get_num_labels (l : BinaryLabels) : Nat :=
  l.m_subset_stack.get_size l.m_labels.length

def add_subset (l : BinaryLabels) (subset : List Nat) : BinaryLabels :=
  { l with m_subset_stack := l.m_subset_stack.add_subset subset }

def remove_subset (l : BinaryLabels) : Option BinaryLabels :=
  match l.m_subset_stack.remove_subset with
  | none => none
  | some st => some { l with m_subset_stack := st }

/-- Label of visible row `i`. -/
def get_label (l : BinaryLabels) (i : Nat) : Option Int :=
  match l.m_subset_stack.subset_idx_conversion i with
  | none => none
  | some j => l.m_labels[j]?

end BinaryLabels

/-- Modelled from the spec: `MulticlassLabels`, one class label per row. -/
structure MulticlassLabels where
  labels : List Int
  deriving DecidableEq, Repr

/-- Modelled from the spec: `get_num_classes`, the number of distinct class labels. -/
def MulticlassLabels.get_num_classes (y : MulticlassLabels) : Nat :=
  y.labels.dedup.length

/-- Modelled from the spec: the member `m_labels`; `as<MulticlassLabels>()` succeeds on
multiclass labels and raises otherwise. -/
inductive Labels where
  | multiclass (y : MulticlassLabels)
  | other
  deriving DecidableEq, Repr

def Labels.as_MulticlassLabels : Labels → Option MulticlassLabels
  | .multiclass y => some y
  | .other => none

/-- Modelled from the spec: the call contract of `MulticlassStrategy` (forward declared in
the header) over a strategy state `P`.  `train_start` receives the true labels and the
values of the fresh binary buffer; `train_prepare_next` rewrites the values of the binary
buffer for the round and returns the subset of the round. -/
structure MulticlassStrategy (P : Type) where
  set_num_classes : P → Nat → P
  train_start : P → List Int → List Int → P × List Int
  train_has_more : P → Bool
  train_prepare_next : P → List Int → P × List Int × List Nat
  train_stop : P → P

/-- What one training call of the base learner does: it returns a `bool`, or it raises. -/
inductive TrainCall (M : Type) where
  | returned (result : Bool) (m : M)
  | raised (code : Nat) (m : M)
  deriving DecidableEq, Repr

/-- Modelled from the spec: the base learner (`Machine`, forward declared in the header)
over a learner state `M`: the training entry point `train(data, labels)`, the copy
`clone(ParameterProperties::MODEL)` of the learned parameters, and whether the checked cast
`as<LinearMachine>()` of a learner succeeds. -/
structure Machine (M Row : Type) where
  train : M → DotFeatures Row → BinaryLabels → TrainCall M
  clone : M → M
  is_linear : M → Bool

/-- The object state: the members inherited from `MulticlassMachine` that the header uses
(`m_multiclass_strategy`, `m_machine`, `m_labels`, `m_machines`) and its own `m_features`.
`none` is a null pointer. -/
structure LinearMulticlassMachine (P M Row : Type) where
  m_multiclass_strategy : Option P
  m_machine : Option M
  m_labels : Option Labels
  m_machines : List M
  m_features : Option (DotFeatures Row)
  deriving DecidableEq, Repr

section code
variable {P M Row : Type}

def set_features (self : LinearMulticlassMachine P M Row) (f : Option (DotFeatures Row)) :
    LinearMulticlassMachine P M Row :=
  { self with m_features := f }

def get_features (self : LinearMulticlassMachine P M Row) : Option (DotFeatures Row) :=
  self.m_features

/-- `is_ready`: whether features are bound. -/
def is_ready (self : LinearMulticlassMachine P M Row) : Bool :=
  match self.m_features with
  | some _ => true
  | none => false

/-- `get_num_rhs_vectors`: `m_features->get_num_vectors()`, with no null check. -/
def get_num_rhs_vectors (self : LinearMulticlassMachine P M Row) :
    Outcome (LinearMulticlassMachine P M Row) Nat :=
  match self.m_features with
  | none => .null_deref
  | some f => .ret f.get_num_vectors self

/-- `add_machine_subset`: `m_features->add_subset(subset)`. -/
def add_machine_subset (self : LinearMulticlassMachine P M Row) (subset : List Nat) :
    Outcome (LinearMulticlassMachine P M Row) Unit :=
  match self.m_features with
  | none => .null_deref
  | some f => .ret () { self with m_features := some (f.add_subset subset) }

/-- `remove_machine_subset`: `m_features->remove_subset()`. -/
def remove_machine_subset (self : LinearMulticlassMachine P M Row) :
    Outcome (LinearMulticlassMachine P M Row) Unit :=
  match self.m_features with
  | none => .null_deref
  | some f =>
    match f.remove_subset with
    | none => .raised .invariant_violation self
    | some g => .ret () { self with m_features := some g }

/-- `get_machine_from_trained`: `machine->clone(ParameterProperties::MODEL)->as<LinearMachine>()`. -/
def get_machine_from_trained (K : Machine M Row) (machine : M) : Option M :=
  if K.is_linear (K.clone machine) then some (K.clone machine) else none

/-- `init_machine_for_train`. -/
def init_machine_for_train (self : LinearMulticlassMachine P M Row)
    (data : Option (Features Row)) : Outcome (LinearMulticlassMachine P M Row) Bool :=
  match self.m_machine with
  | none => .raised (.configuration "No machine given in Multiclass constructor") self
  | some _ =>
    match data with
    | none => .ret true self
    | some d =>
      match d.as_DotFeatures with
      | none => .raised .type_error self
      | some f => .ret true (set_features self (some f))

/-- `init_machines_for_apply`. -/
def init_machines_for_apply (self : LinearMulticlassMachine P M Row)
    (data : Option (Features Row)) : Outcome (LinearMulticlassMachine P M Row) Bool :=
  match data with
  | none => .ret true self
  | some d =>
    match d.as_DotFeatures with
    | none => .raised .type_error self
    | some f => .ret true (set_features self (some f))

/-- Lines 94-99 of the loop body: ask the strategy for the next round and, when the subset
is not empty, push it on the label buffer and on the features. -/
def prepare_round (S : MulticlassStrategy P) (self : LinearMulticlassMachine P M Row)
    (train_labels : BinaryLabels) :
    Outcome (LinearMulticlassMachine P M Row) (BinaryLabels × List Nat) :=
  match self.m_multiclass_strategy with
  | none => .null_deref
  | some p =>
    match S.train_prepare_next p train_labels.m_labels with
    | (p1, values, subset) =>
      let self1 := { self with m_multiclass_strategy := some p1 }
      let labels1 : BinaryLabels := { train_labels with m_labels := values }
      if subset.length ≠ 0 then
        let labels2 := labels1.add_subset subset
        (add_machine_subset self1 subset).bind (fun _ self2 => .ret (labels2, subset) self2)
      else
        .ret (labels1, subset) self1

/-- Lines 101-102 of the loop body: train the base learner on the current views and append
its clone to `m_machines`.  The `bool` returned by the training call is not looked at. -/
def train_and_store (K : Machine M Row) (self : LinearMulticlassMachine P M Row)
    (train_labels : BinaryLabels) : Outcome (LinearMulticlassMachine P M Row) Unit :=
  match self.m_machine with
  | none => .null_deref
  | some m =>
    match self.m_features with
    | none => .null_deref
    | some data =>
      match K.train m data train_labels with
      | .raised code m1 => .raised (.base_learner code) { self with m_machine := some m1 }
      | .returned _ m1 =>
        match get_machine_from_trained K m1 with
        | none => .raised .type_error { self with m_machine := some m1 }
        | some c =>
          .ret () { self with m_machine := some m1, m_machines := self.m_machines ++ [c] }

/-- Lines 104-108 of the loop body: when the subset is not empty, pop it from the label
buffer and from the features. -/
def restore_round (self : LinearMulticlassMachine P M Row) (train_labels : BinaryLabels)
    (subset : List Nat) : Outcome (LinearMulticlassMachine P M Row) BinaryLabels :=
  if subset.length ≠ 0 then
    match train_labels.remove_subset with
    | none => .raised .invariant_violation self
    | some labels1 => (remove_machine_subset self).bind (fun _ self1 => .ret labels1 self1)
  else
    .ret train_labels self

/-- One pass through the body of the `while` loop (lines 93-109). -/
def train_round (S : MulticlassStrategy P) (K : Machine M Row)
    (self : LinearMulticlassMachine P M Row) (train_labels : BinaryLabels) :
    Outcome (LinearMulticlassMachine P M Row) BinaryLabels :=
  (prepare_round S self train_labels).bind fun ls self1 =>
    (train_and_store K self1 ls.1).bind fun _ self2 =>
      restore_round self2 ls.1 ls.2

/-- The `while (m_multiclass_strategy->train_has_more())` loop (lines 92-109); `fuel` bounds
the number of times the loop test is evaluated. -/
def train_loop (S : MulticlassStrategy P) (K : Machine M Row) :
    Nat → LinearMulticlassMachine P M Row → BinaryLabels →
      Outcome (LinearMulticlassMachine P M Row) BinaryLabels
  | 0, _, _ => .no_fuel
  | fuel + 1, self, train_labels =>
    match self.m_multiclass_strategy with
    | none => .null_deref
    | some p =>
      if S.train_has_more p then
        (train_round S K self train_labels).bind fun labels1 self1 =>
          train_loop S K fuel self1 labels1
      else
        .ret train_labels self

/-- `train_machine` (lines 80-115). -/
def train_machine (S : MulticlassStrategy P) (K : Machine M Row) (fuel : Nat)
    (self : LinearMulticlassMachine P M Row) (data : Option (Features Row)) :
    Outcome (LinearMulticlassMachine P M Row) Bool :=
  match data with
  | none => .null_deref
  | some d =>
    match d.as_DotFeatures with
    | none => .raised .type_error self
    | some f =>
      let self1 := { self with m_features := some f }
      match self1.m_multiclass_strategy with
      | none => .raised (.configuration "Multiclass strategy not set") self1
      | some p =>
        match self1.m_labels with
        | none => .null_deref
        | some lab =>
          match lab.as_MulticlassLabels with
          | none => .raised .type_error self1
          | some y =>
            let self2 :=
              { self1 with m_multiclass_strategy := some (S.set_num_classes p y.get_num_classes) }
            let self3 := { self2 with m_machines := [] }
            (get_num_rhs_vectors self3).bind fun n self4 =>
              match self4.m_multiclass_strategy with
              | none => .null_deref
              | some p1 =>
                match S.train_start p1 y.labels (BinaryLabels.sized n).m_labels with
                | (p2, values) =>
                  let train_labels : BinaryLabels :=
                    { BinaryLabels.sized n with m_labels := values }
                  let self5 := { self4 with m_multiclass_strategy := some p2 }
                  (train_loop S K fuel self5 train_labels).bind fun _ self6 =>
                    match self6.m_multiclass_strategy with
                    | none => .null_deref
                    | some p3 =>
                      .ret true { self6 with m_multiclass_strategy := some (S.train_stop p3) }

end code

/-! ## The learner objects behind the shared pointers

`m_machine` and the entries of `m_machines` are `shared_ptr`s to learner objects.  To see
whether a registry entry is an object of its own or an alias of the live learner, the
definitions below keep the learner objects in a store and let `m_machine` and `m_machines`
hold addresses into it.  The training call writes the object at the address of `m_machine`;
the clone call hands back an address.  The statements that do not touch the learner objects
are the ones above, run on the pointer part of the state. -/

/-- Modelled from the spec: the call `machine->clone(ParameterProperties::MODEL)` on a store of
learner objects (the code of `clone` is not in the header).  It returns the store after the
call and the address of the instance it hands back. -/
abbrev CloneCall (M : Type) := List M → Nat → List M × Nat

/-- Modelled from the spec: `clone` returns an independent instance, a new object that carries
the copied parameters `K.clone` of the object it was called on. -/
def clone_is_independent {M Row : Type} (K : Machine M Row) (C : CloneCall M) : Prop :=
  ∀ (store : List M) (a : Nat) (m : M), store[a]? = some m →
    C store a = (store ++ [K.clone m], store.length)

/-- A clone call that allocates a new object for the copied parameters. -/
def allocating_clone {M Row : Type} (K : Machine M Row) : CloneCall M :=
  fun store a =>
    match store[a]? with
    | none => (store, a)
    | some m => (store ++ [K.clone m], store.length)

/-- A clone call that hands back the object it was called on. -/
def aliasing_clone {M : Type} : CloneCall M :=
  fun store a => (store, a)

/-- The object state with the learner objects in a store: `self.m_machine` and the entries of
`self.m_machines` are addresses into `store`. -/
structure Linked (P M Row : Type) where
  self : LinearMulticlassMachine P Nat Row
  store : List M
  deriving DecidableEq, Repr

namespace shared
variable {P M Row : Type}

/-- A call that does not touch the learner objects, with the store carried along. -/
def with_store {α : Type} (x : Outcome (LinearMulticlassMachine P Nat Row) α)
    (store : List M) : Outcome (Linked P M Row) α :=
  match x with
  | .ret a s => .ret a ⟨s, store⟩
  | .raised e s => .raised e ⟨s, store⟩
  | .null_deref => .null_deref
  | .no_fuel => .no_fuel

/-- `get_machine_from_trained`: the clone call, then the checked cast of the instance it
handed back; `none` when the cast fails. -/
def get_machine_from_trained (K : Machine M Row) (C : CloneCall M) (store : List M)
    (machine : Nat) : List M × Option Nat :=
  match C store machine with
  | (store1, c) =>
    match store1[c]? with
    | none => (store1, none)
    | some obj => if K.is_linear obj then (store1, some c) else (store1, none)

/-- Lines 101-102 of the loop body: the training call writes the object `m_machine` points
to; the pointer handed back by `get_machine_from_trained` is appended to `m_machines`. -/
def train_and_store (K : Machine M Row) (C : CloneCall M) (st : Linked P M Row)
    (train_labels : BinaryLabels) : Outcome (Linked P M Row) Unit :=
  match st.self.m_machine with
  | none => .null_deref
  | some a =>
    match st.store[a]? with
    | none => .null_deref
    | some m =>
      match st.self.m_features with
      | none => .null_deref
      | some data =>
        match K.train m data train_labels with
        | .raised code m1 => .raised (.base_learner code) { st with store := st.store.set a m1 }
        | .returned _ m1 =>
          match get_machine_from_trained K C (st.store.set a m1) a with
          | (store1, none) => .raised .type_error { st with store := store1 }
          | (store1, some c) =>
            .ret () ⟨{ st.self with m_machines := st.self.m_machines ++ [c] }, store1⟩

/-- One pass through the body of the `while` loop (lines 93-109). -/
def train_round (S : MulticlassStrategy P) (K : Machine M Row) (C : CloneCall M)
    (st : Linked P M Row) (train_labels : BinaryLabels) :
    Outcome (Linked P M Row) BinaryLabels :=
  (with_store (prepare_round S st.self train_labels) st.store).bind fun ls st1 =>
    (train_and_store K C st1 ls.1).bind fun _ st2 =>
      with_store (restore_round st2.self ls.1 ls.2) st2.store

/-- The `while (m_multiclass_strategy->train_has_more())` loop (lines 92-109). -/
def train_loop (S : MulticlassStrategy P) (K : Machine M Row) (C : CloneCall M) :
    Nat → Linked P M Row → BinaryLabels → Outcome (Linked P M Row) BinaryLabels
  | 0, _, _ => .no_fuel
  | fuel + 1, st, train_labels =>
    match st.self.m_multiclass_strategy with
    | none => .null_deref
    | some p =>
      if S.train_has_more p then
        (train_round S K C st train_labels).bind fun labels1 st1 =>
          train_loop S K C fuel st1 labels1
      else
        .ret train_labels st

/-- `train_machine` (lines 80-115). -/
def train_machine (S : MulticlassStrategy P) (K : Machine M Row) (C : CloneCall M)
    (fuel : Nat) (st : Linked P M Row) (data : Option (Features Row)) :
    Outcome (Linked P M Row) Bool :=
  match data with
  | none => .null_deref
  | some d =>
    match d.as_DotFeatures with
    | none => .raised .type_error st
    | some f =>
      let self1 := { st.self with m_features := some f }
      match self1.m_multiclass_strategy with
      | none => .raised (.configuration "Multiclass strategy not set") ⟨self1, st.store⟩
      | some p =>
        match self1.m_labels with
        | none => .null_deref
        | some lab =>
          match lab.as_MulticlassLabels with
          | none => .raised .type_error ⟨self1, st.store⟩
          | some y =>
            let self2 :=
              { self1 with m_multiclass_strategy := some (S.set_num_classes p y.get_num_classes) }
            let self3 := { self2 with m_machines := [] }
            (with_store (get_num_rhs_vectors self3) st.store).bind fun n st4 =>
              match st4.self.m_multiclass_strategy with
              | none => .null_deref
              | some p1 =>
                match S.train_start p1 y.labels (BinaryLabels.sized n).m_labels with
                | (p2, values) =>
                  let train_labels : BinaryLabels :=
                    { BinaryLabels.sized n with m_labels := values }
                  let st5 : Linked P M Row :=
                    ⟨{ st4.self with m_multiclass_strategy := some p2 }, st4.store⟩
                  (train_loop S K C fuel st5 train_labels).bind fun _ st6 =>
                    match st6.self.m_multiclass_strategy with
                    | none => .null_deref
                    | some p3 =>
                      .ret true
                        ⟨{ st6.self with m_multiclass_strategy := some (S.train_stop p3) },
                          st6.store⟩

end shared

/-! ## Reference run of the rounds

The sequence of strategy states, label values and learner states that the rounds go through,
written as plain recursion.  The theorems below compare `train_loop` with it. -/

section reference
variable {P M Row : Type}

/-- Feature view of a round with subset `s` over the view `f` before the round. -/
def round_features (f : DotFeatures Row) (s : List Nat) : DotFeatures Row :=
  if s.length ≠ 0 then f.add_subset s else f

/-- Label view of a round with subset `s` over the buffer `l` before the round. -/
def round_labels (l : BinaryLabels) (s : List Nat) : BinaryLabels :=
  if s.length ≠ 0 then l.add_subset s else l

/-- Learner state a training call leaves behind. -/
def TrainCall.learner : TrainCall M → M
  | .returned _ m => m
  | .raised _ m => m

/-- Strategy state and label values after one more `train_prepare_next`. -/
def strategy_next (S : MulticlassStrategy P) (x : P × List Int) : P × List Int :=
  ((S.train_prepare_next x.1 x.2).1, (S.train_prepare_next x.1 x.2).2.1)

/-- Subset of the round that starts in `x`. -/
def round_subset (S : MulticlassStrategy P) (x : P × List Int) : List Nat :=
  (S.train_prepare_next x.1 x.2).2.2

/-- Strategy state and label values after `k` rounds. -/
def strategy_after (S : MulticlassStrategy P) : Nat → P × List Int → P × List Int
  | 0, x => x
  | k + 1, x => strategy_after S k (strategy_next S x)

/-- The training call of the round that starts in `x` with learner `m`. -/
def round_call (S : MulticlassStrategy P) (K : Machine M Row) (f : DotFeatures Row)
    (x : P × List Int) (m : M) : TrainCall M :=
  K.train m (round_features f (round_subset S x))
    (round_labels ⟨(strategy_next S x).2, ⟨[]⟩⟩ (round_subset S x))

/-- Learner state after the training calls of `k` rounds. -/
def learner_after (S : MulticlassStrategy P) (K : Machine M Row) (f : DotFeatures Row) :
    Nat → P × List Int → M → M
  | 0, _, m => m
  | k + 1, x, m => learner_after S K f k (strategy_next S x) (round_call S K f x m).learner

/-- The training call of round `k` (0-based). -/
def call_of_round (S : MulticlassStrategy P) (K : Machine M Row) (f : DotFeatures Row)
    (k : Nat) (x : P × List Int) (m : M) : TrainCall M :=
  round_call S K f (strategy_after S k x) (learner_after S K f k x m)

/-- The strategy reports exactly `R` rounds: `train_has_more` is true before each of the
first `R` rounds and false after them. -/
def reports_rounds (S : MulticlassStrategy P) (x : P × List Int) (R : Nat) : Prop :=
  (∀ j, j < R → S.train_has_more (strategy_after S j x).1 = true) ∧
    S.train_has_more (strategy_after S R x).1 = false

/-- Strategy state and label values when the loop is entered: after `set_num_classes` and
`train_start` on a fresh buffer of `n` labels. -/
def strategy_at_start (S : MulticlassStrategy P) (p : P) (y : MulticlassLabels) (n : Nat) :
    P × List Int :=
  S.train_start (S.set_num_classes p y.get_num_classes) y.labels (BinaryLabels.sized n).m_labels

/-- State of the object after `k` completed rounds of the reference run. -/
def self_after (S : MulticlassStrategy P) (K : Machine M Row) (f : DotFeatures Row)
    (self : LinearMulticlassMachine P M Row) (x : P × List Int) (m : M) (k : Nat) :
    LinearMulticlassMachine P M Row :=
  { self with
      m_multiclass_strategy := some (strategy_after S k x).1,
      m_machine := some (learner_after S K f k x m),
      m_machines := self.m_machines ++
        (List.range k).map (fun j => K.clone (learner_after S K f (j + 1) x m)) }

/-- Round `j` of the reference run completes: its training call returns and the clone of the
learner passes the cast to `LinearMachine`. -/
def round_completes (S : MulticlassStrategy P) (K : Machine M Row) (f : DotFeatures Row)
    (x : P × List Int) (m : M) (j : Nat) : Prop :=
  (∃ b, call_of_round S K f j x m = .returned b (learner_after S K f (j + 1) x m)) ∧
    K.is_linear (K.clone (learner_after S K f (j + 1) x m)) = true

/-- State of the object when the loop is entered. -/
def self_at_start (S : MulticlassStrategy P) (self : LinearMulticlassMachine P M Row)
    (f : DotFeatures Row) (p : P) (y : MulticlassLabels) : LinearMulticlassMachine P M Row :=
  { self with m_multiclass_strategy := some (strategy_at_start S p y f.get_num_vectors).1,
              m_machines := [],
              m_features := some f }

/-- The last two statements of `train_machine`: `train_stop` and `return true`. -/
def finish_training (S : MulticlassStrategy P) (self : LinearMulticlassMachine P M Row) :
    Outcome (LinearMulticlassMachine P M Row) Bool :=
  match self.m_multiclass_strategy with
  | none => .null_deref
  | some p => .ret true { self with m_multiclass_strategy := some (S.train_stop p) }

/-- State over the store after `k` completed rounds of the reference run, when every clone
is a new object: the live learner at address `a` holds its state after `k` rounds, the `k`
clones follow the objects that were in the store, and the registry has their addresses. -/
def linked_after (S : MulticlassStrategy P) (K : Machine M Row) (f : DotFeatures Row)
    (st : Linked P M Row) (x : P × List Int) (a : Nat) (m : M) (k : Nat) : Linked P M Row :=
  ⟨{ st.self with
      m_multiclass_strategy := some (strategy_after S k x).1,
      m_machines := st.self.m_machines ++ (List.range k).map (fun j => st.store.length + j) },
    st.store.set a (learner_after S K f k x m) ++
      (List.range k).map (fun j => K.clone (learner_after S K f (j + 1) x m))⟩

/-- State over the store when the loop is entered. -/
def linked_at_start (S : MulticlassStrategy P) (st : Linked P M Row) (f : DotFeatures Row)
    (p : P) (y : MulticlassLabels) : Linked P M Row :=
  ⟨self_at_start S st.self f p y, st.store⟩

/-- The last two statements of `train_machine` over the store. -/
def linked_finish_training (S : MulticlassStrategy P) (st : Linked P M Row) :
    Outcome (Linked P M Row) Bool :=
  match st.self.m_multiclass_strategy with
  | none => .null_deref
  | some p => .ret true ⟨{ st.self with m_multiclass_strategy := some (S.train_stop p) }, st.store⟩

end reference

/-! ## Concrete collaborators used to run the code on examples -/

namespace fixture

/-- State of a scripted strategy: round `k` relabels every row with `+1` when its class is
`k` and `-1` otherwise (one-vs-rest style) and uses the `k`-th subset of the script. -/
structure Script where
  num_classes : Nat
  orig : List Int
  pending : List (List Nat)
  round : Nat
  deriving DecidableEq, Repr

def scripted : MulticlassStrategy Script where
  set_num_classes p n := { p with num_classes := n }
  train_start p y values := ({ p with orig := y, round := 0 }, values)
  train_has_more p := !p.pending.isEmpty
  train_prepare_next p _ :=
    ({ p with pending := p.pending.tail, round := p.round + 1 },
      p.orig.map (fun c => if c = (p.round : Int) then 1 else -1),
      p.pending.headD [])
  train_stop p := p

/-- State of a recording learner: `weight` is the learned parameter, `rows_seen` logs the
number of rows of every training call, `raise_on` / `false_on` name the call (1-based) on
which training raises / returns `false`. -/
structure Recorder where
  weight : Int
  rows_seen : List (Nat × Nat)
  raise_on : Option Nat
  false_on : Option Nat
  deriving DecidableEq, Repr

/-- Sum over the visible rows of label times feature value. -/
def fit (f : DotFeatures Int) (l : BinaryLabels) : Int :=
  ((List.range f.get_num_vectors).map
    (fun i => (l.get_label i).getD 0 * (f.get_feature_vector i).getD 0)).sum

def recorder : Machine Recorder Int where
  train m f l :=
    let m1 : Recorder :=
      { m with weight := fit f l,
               rows_seen := m.rows_seen ++ [(f.get_num_vectors, l.get_num_labels)] }
    if m.raise_on = some (m.rows_seen.length + 1) then .raised 7 m1
    else .returned (decide (m.false_on ≠ some (m.rows_seen.length + 1))) m1
  clone m := { weight := m.weight, rows_seen := [], raise_on := none, false_on := none }
  is_linear _ := true

/-- Nine rows with feature values 1..9. -/
def nine_rows : DotFeatures Int :=
  ⟨[1, 2, 3, 4, 5, 6, 7, 8, 9], ⟨[]⟩⟩

/-- Three classes 0, 1, 2 over nine rows. -/
def three_classes : Labels :=
  .multiclass ⟨[0, 1, 2, 0, 1, 2, 0, 1, 2]⟩

def fresh_learner : Recorder :=
  ⟨0, [], none, none⟩

/-- An orchestrator with the scripted strategy, the given learner and prior registry, the
three-class labels and no features bound. -/
def machine_with (script : List (List Nat)) (learner : Option Recorder)
    (registry : List Recorder) : LinearMulticlassMachine Script Recorder Int :=
  { m_multiclass_strategy := some ⟨0, [], script, 0⟩,
    m_machine := learner,
    m_labels := some three_classes,
    m_machines := registry,
    m_features := none }

/-- The scripted strategy state with the given script, before training. -/
def script_of (script : List (List Nat)) : Script :=
  ⟨0, [], script, 0⟩

/-- The 0/1/2 class labels of `three_classes`. -/
def three_class_values : MulticlassLabels :=
  ⟨[0, 1, 2, 0, 1, 2, 0, 1, 2]⟩

/-- A parameters-only clone with the given weight. -/
def submodel (w : Int) : Recorder :=
  ⟨w, [], none, none⟩

/-- The scripted strategy state when the loop is entered on `three_classes`. -/
def started_script (script : List (List Nat)) : Script :=
  ⟨3, [0, 1, 2, 0, 1, 2, 0, 1, 2], script, 0⟩

/-- An orchestrator inside `train_machine` when the loop is entered: `nine_rows` bound, the
strategy started, the registry cleared. -/
def machine_in_loop (script : List (List Nat)) : LinearMulticlassMachine Script Recorder Int :=
  { m_multiclass_strategy := some (started_script script),
    m_machine := some fresh_learner,
    m_labels := some three_classes,
    m_machines := [],
    m_features := some nine_rows }

/-- The orchestrator after training three one-vs-rest rounds without subsetting on
`nine_rows`. -/
def trained_three_rounds : LinearMulticlassMachine Script Recorder Int :=
  { m_multiclass_strategy := some ⟨3, [0, 1, 2, 0, 1, 2, 0, 1, 2], [], 3⟩,
    m_machine := some ⟨-9, [(9, 9), (9, 9), (9, 9)], none, none⟩,
    m_labels := some three_classes,
    m_machines := [submodel (-21), submodel (-15), submodel (-9)],
    m_features := some nine_rows }

/-- An orchestrator with learner and labels but no strategy and no features bound. -/
def no_strategy_machine : LinearMulticlassMachine Script Recorder Int :=
  { m_multiclass_strategy := none,
    m_machine := some fresh_learner,
    m_labels := some three_classes,
    m_machines := [submodel 5],
    m_features := none }

/-- An orchestrator over a store: the live learner is the object at address 0, the registry
holds the addresses 1 and 2 of two submodels of an earlier pass. -/
def linked_machine (script : List (List Nat)) : Linked Script Recorder Int :=
  { self :=
      { m_multiclass_strategy := some (script_of script),
        m_machine := some 0,
        m_labels := some three_classes,
        m_machines := [1, 2],
        m_features := none },
    store := [fresh_learner, submodel 5, submodel 6] }

/-- The state `linked_machine [[], [], []]` is left in by training on `nine_rows` with an
allocating clone: three new objects at the addresses 3, 4 and 5. -/
def linked_trained : Linked Script Recorder Int :=
  { self :=
      { m_multiclass_strategy := some ⟨3, [0, 1, 2, 0, 1, 2, 0, 1, 2], [], 3⟩,
        m_machine := some 0,
        m_labels := some three_classes,
        m_machines := [3, 4, 5],
        m_features := some nine_rows },
    store := [⟨-9, [(9, 9), (9, 9), (9, 9)], none, none⟩, submodel 5, submodel 6,
      submodel (-21), submodel (-15), submodel (-9)] }

end fixture

end shogun

/-! ## Lemmas on the views -/

namespace shogun

section views
variable {Row : Type}

theorem features_get_num_vectors_add_subset (f : DotFeatures Row) (s : List Nat) :
    (f.add_subset s).get_num_vectors = s.length := rfl

theorem features_remove_subset_add_subset (f : DotFeatures Row) (s : List Nat) :
    (f.add_subset s).remove_subset = some f := rfl

theorem features_get_feature_vector_add_subset (f : DotFeatures Row) (s : List Nat)
    (i : Nat) : (f.add_subset s).get_feature_vector i = (s[i]?).bind f.get_feature_vector := by
  unfold DotFeatures.get_feature_vector DotFeatures.add_subset SubsetStack.add_subset
    SubsetStack.subset_idx_conversion
  simp only [SubsetStack.convert]
  cases s[i]? <;> rfl

theorem labels_get_num_labels_add_subset (l : BinaryLabels) (s : List Nat) :
    (l.add_subset s).get_num_labels = s.length := rfl

theorem labels_remove_subset_add_subset (l : BinaryLabels) (s : List Nat) :
    (l.add_subset s).remove_subset = some l := rfl

theorem labels_get_label_add_subset (l : BinaryLabels) (s : List Nat) (i : Nat) :
    (l.add_subset s).get_label i = (s[i]?).bind l.get_label := by
  unfold BinaryLabels.get_label BinaryLabels.add_subset SubsetStack.add_subset
    SubsetStack.subset_idx_conversion
  simp only [SubsetStack.convert]
  cases s[i]? <;> rfl

end views

/-! ## One round of the loop -/

section round
variable {P M Row : Type}

/-- What one pass through the loop body does when strategy, learner and features are bound:
the learner is called on the views `round_features` / `round_labels`; when it raises, the
exception leaves with the views still narrowed; when it returns, its clone is appended and
the views are restored. -/
theorem train_round_eq (S : MulticlassStrategy P) (K : Machine M Row)
    (self : LinearMulticlassMachine P M Row) (l : BinaryLabels) (p : P) (m : M)
    (f : DotFeatures Row)
    (hp : self.m_multiclass_strategy = some p) (hm : self.m_machine = some m)
    (hf : self.m_features = some f) :
    train_round S K self l =
      match S.train_prepare_next p l.m_labels with
      | (p1, v1, s) =>
        match K.train m (round_features f s) (round_labels { l with m_labels := v1 } s) with
        | .raised code m1 =>
          .raised (.base_learner code)
            { self with m_multiclass_strategy := some p1, m_machine := some m1,
                        m_features := some (round_features f s) }
        | .returned _ m1 =>
          if K.is_linear (K.clone m1) then
            .ret { l with m_labels := v1 }
              { self with m_multiclass_strategy := some p1, m_machine := some m1,
                          m_machines := self.m_machines ++ [K.clone m1] }
          else
            .raised .type_error
              { self with m_multiclass_strategy := some p1, m_machine := some m1,
                          m_features := some (round_features f s) } := by
  obtain ⟨sp, sm, sl, sr, sf⟩ := self
  simp only at hp hm hf
  subst hp hm hf
  rcases hn : S.train_prepare_next p l.m_labels with ⟨p1, v1, s⟩
  unfold train_round prepare_round
  simp only [hn]
  by_cases hs : s.length = 0
  · simp only [hs, ne_eq, not_true_eq_false, ite_false, Outcome.bind, train_and_store,
      round_features, round_labels, restore_round, get_machine_from_trained]
    cases K.train m f { l with m_labels := v1 } with
    | raised c m1 => rfl
    | returned b m1 =>
      by_cases hl : K.is_linear (K.clone m1) = true
      · simp [hl]
      · simp [hl]
  · simp only [hs, ne_eq, not_false_eq_true, ite_true, Outcome.bind, train_and_store,
      round_features, round_labels, restore_round, get_machine_from_trained,
      add_machine_subset]
    cases K.train m (f.add_subset s)
        (BinaryLabels.add_subset { l with m_labels := v1 } s) with
    | raised c m1 => rfl
    | returned b m1 =>
      by_cases hl : K.is_linear (K.clone m1) = true
      · simp [hl, labels_remove_subset_add_subset, remove_machine_subset,
          features_remove_subset_add_subset, Outcome.bind]
      · simp [hl]

end round

/-! ## The loop against the reference run -/

section loop
variable {P M Row : Type}

theorem train_round_ref (S : MulticlassStrategy P) (K : Machine M Row)
    (self : LinearMulticlassMachine P M Row) (x : P × List Int) (m : M) (f : DotFeatures Row)
    (hp : self.m_multiclass_strategy = some x.1) (hm : self.m_machine = some m)
    (hf : self.m_features = some f) :
    train_round S K self ⟨x.2, ⟨[]⟩⟩ =
      match round_call S K f x m with
      | .raised code m1 =>
        .raised (.base_learner code)
          { self with m_multiclass_strategy := some (strategy_next S x).1, m_machine := some m1,
                      m_features := some (round_features f (round_subset S x)) }
      | .returned _ m1 =>
        if K.is_linear (K.clone m1) then
          .ret ⟨(strategy_next S x).2, ⟨[]⟩⟩
            { self with m_multiclass_strategy := some (strategy_next S x).1,
                        m_machine := some m1,
                        m_machines := self.m_machines ++ [K.clone m1] }
        else
          .raised .type_error
            { self with m_multiclass_strategy := some (strategy_next S x).1,
                        m_machine := some m1,
                        m_features := some (round_features f (round_subset S x)) } := by
  rw [train_round_eq S K self ⟨x.2, ⟨[]⟩⟩ x.1 m f hp hm hf]
  rfl

theorem self_after_zero (S : MulticlassStrategy P) (K : Machine M Row) (f : DotFeatures Row)
    (self : LinearMulticlassMachine P M Row) (x : P × List Int) (m : M)
    (hp : self.m_multiclass_strategy = some x.1) (hm : self.m_machine = some m) :
    self_after S K f self x m 0 = self := by
  obtain ⟨sp, sm, sl, sr, sf⟩ := self
  simp only at hp hm
  subst hp hm
  simp [self_after, strategy_after, learner_after]

theorem self_after_succ (S : MulticlassStrategy P) (K : Machine M Row) (f : DotFeatures Row)
    (self : LinearMulticlassMachine P M Row) (x : P × List Int) (m : M) (k : Nat) :
    self_after S K f
        { self with m_multiclass_strategy := some (strategy_next S x).1,
                    m_machine := some (round_call S K f x m).learner,
                    m_machines := self.m_machines ++ [K.clone (round_call S K f x m).learner] }
        (strategy_next S x) (round_call S K f x m).learner k =
      self_after S K f self x m (k + 1) := by
  simp only [self_after, strategy_after, learner_after, List.range_succ_eq_map, List.map_cons,
    List.map_map, List.append_assoc, List.singleton_append]
  rfl

/-- When the loop returns, it ran some number `R` of rounds that the strategy reports, all
of them completed, and it left the object in the state of the reference run after `R`
rounds. -/
theorem train_loop_ret (S : MulticlassStrategy P) (K : Machine M Row) (f : DotFeatures Row) :
    ∀ (fuel : Nat) (self : LinearMulticlassMachine P M Row) (x : P × List Int) (m : M)
      (l1 : BinaryLabels) (self1 : LinearMulticlassMachine P M Row),
      self.m_multiclass_strategy = some x.1 → self.m_machine = some m →
      self.m_features = some f →
      train_loop S K fuel self ⟨x.2, ⟨[]⟩⟩ = .ret l1 self1 →
      ∃ R, R < fuel ∧ reports_rounds S x R ∧ (∀ j, j < R → round_completes S K f x m j) ∧
        self1 = self_after S K f self x m R := by
  intro fuel
  induction fuel with
  | zero => intro self x m l1 self1 _ _ _ h; simp [train_loop] at h
  | succ n ih =>
    intro self x m l1 self1 hp hm hf h
    unfold train_loop at h
    simp only [hp] at h
    by_cases hmore : S.train_has_more x.1 = true
    · simp only [hmore, ite_true] at h
      rw [train_round_ref S K self x m f hp hm hf] at h
      cases hc : round_call S K f x m with
      | raised c m1 => simp [hc, Outcome.bind] at h
      | returned b m1 =>
        simp only [hc] at h
        by_cases hl : K.is_linear (K.clone m1) = true
        · simp only [hl, ite_true, Outcome.bind] at h
          have hlearn : (round_call S K f x m).learner = m1 := by rw [hc]; rfl
          obtain ⟨R, hR, hrep, hcomp, hself⟩ :=
            ih { self with m_multiclass_strategy := some (strategy_next S x).1,
                           m_machine := some m1,
                           m_machines := self.m_machines ++ [K.clone m1] }
              (strategy_next S x) m1 l1 self1 rfl rfl hf h
          refine ⟨R + 1, Nat.succ_lt_succ hR, ⟨?_, hrep.2⟩, ?_, ?_⟩
          · intro j hj
            cases j with
            | zero => exact hmore
            | succ j => exact hrep.1 j (Nat.lt_of_succ_lt_succ hj)
          · intro j hj
            cases j with
            | zero =>
              refine ⟨⟨b, ?_⟩, ?_⟩
              · simp only [call_of_round, strategy_after, learner_after, hc]
                rfl
              · simp only [learner_after, hlearn]; exact hl
            | succ j =>
              have := hcomp j (Nat.lt_of_succ_lt_succ hj)
              simpa only [round_completes, call_of_round, strategy_after, learner_after,
                hlearn] using this
          · rw [hself, ← self_after_succ, hlearn]
        · simp [hl, Outcome.bind] at h
    · simp only [hmore, Bool.false_eq_true, ite_false] at h
      injection h with h1 h2
      refine ⟨0, Nat.succ_pos n, ⟨?_, ?_⟩, ?_, ?_⟩
      · intro j hj; exact absurd hj (Nat.not_lt_zero j)
      · simpa [strategy_after] using hmore
      · intro j hj; exact absurd hj (Nat.not_lt_zero j)
      · rw [self_after_zero S K f self x m hp hm]; exact h2.symm

/-- When the first `k` rounds of the reference run are requested by the strategy and
complete, the loop reaches the state of the reference run after `k` rounds. -/
theorem train_loop_unroll (S : MulticlassStrategy P) (K : Machine M Row) (f : DotFeatures Row) :
    ∀ (k fuel : Nat) (self : LinearMulticlassMachine P M Row) (x : P × List Int) (m : M),
      self.m_multiclass_strategy = some x.1 → self.m_machine = some m →
      self.m_features = some f →
      (∀ j, j < k → S.train_has_more (strategy_after S j x).1 = true ∧
        round_completes S K f x m j) →
      train_loop S K (fuel + k) self ⟨x.2, ⟨[]⟩⟩ =
        train_loop S K fuel (self_after S K f self x m k) ⟨(strategy_after S k x).2, ⟨[]⟩⟩ := by
  intro k
  induction k with
  | zero =>
    intro fuel self x m hp hm _ _
    rw [self_after_zero S K f self x m hp hm]
    rfl
  | succ k ih =>
    intro fuel self x m hp hm hf hall
    obtain ⟨hmore, ⟨b, hcall⟩, hlin⟩ := hall 0 (Nat.succ_pos k)
    have hmore1 : S.train_has_more x.1 = true := hmore
    obtain ⟨m1, hm1⟩ : ∃ m1, (round_call S K f x m).learner = m1 := ⟨_, rfl⟩
    have hc : round_call S K f x m = .returned b m1 := by
      rw [← hm1]; exact hcall
    have hlin1 : K.is_linear (K.clone m1) = true := by
      rw [← hm1]; exact hlin
    have hstep : train_loop S K (fuel + (k + 1)) self ⟨x.2, ⟨[]⟩⟩ =
        train_loop S K (fuel + k)
          { self with m_multiclass_strategy := some (strategy_next S x).1,
                      m_machine := some m1,
                      m_machines := self.m_machines ++ [K.clone m1] }
          ⟨(strategy_next S x).2, ⟨[]⟩⟩ := by
      show train_loop S K ((fuel + k) + 1) self ⟨x.2, ⟨[]⟩⟩ = _
      rw [train_loop]
      simp only [hp, hmore1, ite_true]
      rw [train_round_ref S K self x m f hp hm hf, hc]
      simp only [hlin1, ite_true, Outcome.bind]
    rw [hstep, ih fuel
      { self with m_multiclass_strategy := some (strategy_next S x).1,
                  m_machine := some m1,
                  m_machines := self.m_machines ++ [K.clone m1] }
      (strategy_next S x) m1 rfl rfl hf]
    · rw [← hm1, self_after_succ]
      rfl
    · intro j hj
      have := hall (j + 1) (Nat.succ_lt_succ hj)
      rw [← hm1]
      simpa only [round_completes, call_of_round, strategy_after, learner_after] using this

/-- Without a base learner the loop body cannot complete a round. -/
theorem train_round_no_machine (S : MulticlassStrategy P) (K : Machine M Row)
    (self : LinearMulticlassMachine P M Row) (l l1 : BinaryLabels)
    (self1 : LinearMulticlassMachine P M Row) (hm : self.m_machine = none) :
    train_round S K self l ≠ .ret l1 self1 := by
  obtain ⟨sp, sm, sl, sr, sf⟩ := self
  simp only at hm
  subst hm
  unfold train_round prepare_round
  cases sp with
  | none => simp [Outcome.bind]
  | some p =>
    rcases hn : S.train_prepare_next p l.m_labels with ⟨p1, v1, s⟩
    simp only [hn]
    by_cases hs : s.length = 0
    · simp only [hs, ne_eq, not_true_eq_false, ite_false, Outcome.bind, train_and_store]
      simp
    · cases sf with
      | none =>
        simp only [hs, ne_eq, not_false_eq_true, ite_true, Outcome.bind, add_machine_subset]
        simp
      | some f =>
        simp only [hs, ne_eq, not_false_eq_true, ite_true, Outcome.bind, add_machine_subset,
          train_and_store]
        simp

/-- Without a base learner the loop returns only when the strategy asks for no round. -/
theorem train_loop_ret_no_machine (S : MulticlassStrategy P) (K : Machine M Row)
    (fuel : Nat) (self : LinearMulticlassMachine P M Row) (p : P) (l l1 : BinaryLabels)
    (self1 : LinearMulticlassMachine P M Row)
    (hp : self.m_multiclass_strategy = some p) (hm : self.m_machine = none)
    (h : train_loop S K fuel self l = .ret l1 self1) :
    self1 = self ∧ S.train_has_more p = false := by
  cases fuel with
  | zero => simp [train_loop] at h
  | succ n =>
    unfold train_loop at h
    simp only [hp] at h
    by_cases hmore : S.train_has_more p = true
    · simp only [hmore, ite_true] at h
      cases hr : train_round S K self l with
      | ret l2 self2 => exact absurd hr (train_round_no_machine S K self l l2 self2 hm)
      | raised e s2 => simp [hr, Outcome.bind] at h
      | null_deref => simp [hr, Outcome.bind] at h
      | no_fuel => simp [hr, Outcome.bind] at h
    · simp only [hmore, Bool.false_eq_true, ite_false] at h
      injection h with h1 h2
      exact ⟨h2.symm, by simpa using hmore⟩

/-- With strategy and multiclass labels bound, `train_machine` on dot features is the loop
run from `self_at_start`, followed by `train_stop`. -/
theorem train_machine_eq (S : MulticlassStrategy P) (K : Machine M Row) (fuel : Nat)
    (self : LinearMulticlassMachine P M Row) (f : DotFeatures Row) (p : P)
    (y : MulticlassLabels)
    (hp : self.m_multiclass_strategy = some p)
    (hl : self.m_labels = some (.multiclass y)) :
    train_machine S K fuel self (some (.dot f)) =
      (train_loop S K fuel (self_at_start S self f p y)
        ⟨(strategy_at_start S p y f.get_num_vectors).2, ⟨[]⟩⟩).bind
        (fun _ self6 => finish_training S self6) := by
  obtain ⟨sp, sm, sl, sr, sf⟩ := self
  simp only at hp hl
  subst hp hl
  rfl

/-- A returning `train_machine` was given dot features, and strategy and multiclass labels
were bound. -/
theorem train_machine_ret_inv (S : MulticlassStrategy P) (K : Machine M Row) (fuel : Nat)
    (self self1 : LinearMulticlassMachine P M Row) (data : Option (Features Row)) (b : Bool)
    (h : train_machine S K fuel self data = .ret b self1) :
    ∃ f p y, data = some (.dot f) ∧ self.m_multiclass_strategy = some p ∧
      self.m_labels = some (.multiclass y) := by
  obtain ⟨sp, sm, sl, sr, sf⟩ := self
  unfold train_machine at h
  cases data with
  | none => simp at h
  | some d =>
    cases d with
    | other => simp [Features.as_DotFeatures] at h
    | dot f =>
      cases sp with
      | none => simp [Features.as_DotFeatures] at h
      | some p =>
        cases sl with
        | none => simp [Features.as_DotFeatures] at h
        | some lab =>
          cases lab with
          | other => simp [Features.as_DotFeatures, Labels.as_MulticlassLabels] at h
          | multiclass y => exact ⟨f, p, y, rfl, rfl, rfl⟩

theorem reports_rounds_unique (S : MulticlassStrategy P) (x : P × List Int) (R R1 : Nat)
    (h : reports_rounds S x R) (h1 : reports_rounds S x R1) : R = R1 := by
  rcases Nat.lt_trichotomy R R1 with hlt | heq | hgt
  · have := h1.1 R hlt
    rw [h.2] at this
    exact absurd this (by decide)
  · exact heq
  · have := h.1 R1 hgt
    rw [h1.2] at this
    exact absurd this (by decide)

theorem strategy_after_succ (S : MulticlassStrategy P) :
    ∀ (k : Nat) (x : P × List Int),
      strategy_after S (k + 1) x = strategy_next S (strategy_after S k x) := by
  intro k
  induction k with
  | zero => intro x; rfl
  | succ k ih => intro x; exact ih (strategy_next S x)

/-- The learner state after `k + 1` rounds is the state left by the training call of round
`k` (0-based). -/
theorem learner_after_succ (S : MulticlassStrategy P) (K : Machine M Row)
    (f : DotFeatures Row) :
    ∀ (k : Nat) (x : P × List Int) (m : M),
      learner_after S K f (k + 1) x m = (call_of_round S K f k x m).learner := by
  intro k
  induction k with
  | zero => intro x m; rfl
  | succ k ih => intro x m; exact ih (strategy_next S x) (round_call S K f x m).learner

theorem finish_training_ret (S : MulticlassStrategy P)
    (self self1 : LinearMulticlassMachine P M Row) (b : Bool)
    (h : finish_training S self = .ret b self1) :
    b = true ∧ self1.m_machines = self.m_machines ∧ self1.m_features = self.m_features ∧
      self1.m_machine = self.m_machine ∧ self1.m_labels = self.m_labels := by
  unfold finish_training at h
  cases hp : self.m_multiclass_strategy with
  | none => simp [hp] at h
  | some p =>
    simp only [hp] at h
    injection h with h1 h2
    subst h2
    exact ⟨h1.symm, rfl, rfl, rfl, rfl⟩

/-- What a returning `train_machine` has done: it ran the `R` rounds the strategy reports,
left the features as supplied and the registry with one entry per round. -/
theorem train_machine_ret (S : MulticlassStrategy P) (K : Machine M Row) (fuel : Nat)
    (self self1 : LinearMulticlassMachine P M Row) (f : DotFeatures Row) (p : P)
    (y : MulticlassLabels) (b : Bool)
    (hp : self.m_multiclass_strategy = some p)
    (hl : self.m_labels = some (.multiclass y))
    (h : train_machine S K fuel self (some (.dot f)) = .ret b self1) :
    b = true ∧ ∃ R, R < fuel ∧
      reports_rounds S (strategy_at_start S p y f.get_num_vectors) R ∧
      self1.m_features = some f ∧ self1.m_machines.length = R ∧
      (∀ m, self.m_machine = some m →
        (∀ j, j < R →
          round_completes S K f (strategy_at_start S p y f.get_num_vectors) m j) ∧
        self1.m_machines = (List.range R).map (fun j =>
          K.clone (learner_after S K f (j + 1) (strategy_at_start S p y f.get_num_vectors) m))) := by
  rw [train_machine_eq S K fuel self f p y hp hl] at h
  cases hloop : train_loop S K fuel (self_at_start S self f p y)
      ⟨(strategy_at_start S p y f.get_num_vectors).2, ⟨[]⟩⟩ with
  | raised e s2 => simp [hloop, Outcome.bind] at h
  | null_deref => simp [hloop, Outcome.bind] at h
  | no_fuel => simp [hloop, Outcome.bind] at h
  | ret l2 self2 =>
    simp only [hloop, Outcome.bind] at h
    obtain ⟨hb, hreg, hfeat, _, _⟩ := finish_training_ret S self2 self1 b h
    refine ⟨hb, ?_⟩
    cases hm : self.m_machine with
    | none =>
      have hfuel : 0 < fuel := by
        cases fuel with
        | zero => simp [train_loop] at hloop
        | succ n => exact Nat.succ_pos n
      obtain ⟨hself, hmore⟩ := train_loop_ret_no_machine S K fuel (self_at_start S self f p y)
        (strategy_at_start S p y f.get_num_vectors).1 _ l2 self2 rfl hm hloop
      refine ⟨0, hfuel, ⟨?_, hmore⟩, ?_, ?_, ?_⟩
      · intro j hj; exact absurd hj (Nat.not_lt_zero j)
      · rw [hfeat, hself]; rfl
      · rw [hreg, hself]; rfl
      · intro m hm1; exact absurd hm1 (by simp)
    | some m =>
      obtain ⟨R, hR, hrep, hcomp, hself⟩ := train_loop_ret S K f fuel
        (self_at_start S self f p y) (strategy_at_start S p y f.get_num_vectors) m l2 self2
        rfl hm rfl hloop
      refine ⟨R, hR, hrep, ?_, ?_, ?_⟩
      · rw [hfeat, hself]; rfl
      · rw [hreg, hself]; simp [self_after, self_at_start]
      · intro m1 hm1
        injection hm1 with hm1
        subst hm1
        refine ⟨hcomp, ?_⟩
        rw [hreg, hself]; simp [self_after, self_at_start]

/-- When the first `k` rounds complete and the training call of round `k` (0-based) raises,
`train_machine` raises that error; the registry holds the clones of the first `k` rounds
and the features still carry the view of round `k`. -/
theorem train_machine_raise (S : MulticlassStrategy P) (K : Machine M Row) (fuel : Nat)
    (self : LinearMulticlassMachine P M Row) (f : DotFeatures Row) (p : P)
    (y : MulticlassLabels) (m m1 : M) (k code : Nat)
    (hp : self.m_multiclass_strategy = some p)
    (hl : self.m_labels = some (.multiclass y))
    (hm : self.m_machine = some m)
    (hk : k < fuel)
    (hall : ∀ j, j < k →
      S.train_has_more (strategy_after S j (strategy_at_start S p y f.get_num_vectors)).1 = true ∧
      round_completes S K f (strategy_at_start S p y f.get_num_vectors) m j)
    (hmore : S.train_has_more
      (strategy_after S k (strategy_at_start S p y f.get_num_vectors)).1 = true)
    (hcall : call_of_round S K f k (strategy_at_start S p y f.get_num_vectors) m =
      .raised code m1) :
    train_machine S K fuel self (some (.dot f)) =
      .raised (.base_learner code)
        { self with
            m_multiclass_strategy :=
              some (strategy_after S (k + 1) (strategy_at_start S p y f.get_num_vectors)).1,
            m_machine := some m1,
            m_machines := (List.range k).map (fun j =>
              K.clone (learner_after S K f (j + 1) (strategy_at_start S p y f.get_num_vectors) m)),
            m_features := some (round_features f
              (round_subset S (strategy_after S k (strategy_at_start S p y f.get_num_vectors)))) } := by
  rw [train_machine_eq S K fuel self f p y hp hl]
  obtain ⟨n, hn⟩ : ∃ n, fuel = (n + 1) + k := ⟨fuel - k - 1, by omega⟩
  subst hn
  rw [train_loop_unroll S K f k (n + 1) (self_at_start S self f p y)
    (strategy_at_start S p y f.get_num_vectors) m rfl hm rfl hall]
  rw [train_loop]
  simp only [self_after, hmore, ite_true]
  rw [train_round_ref S K _ (strategy_after S k (strategy_at_start S p y f.get_num_vectors))
    (learner_after S K f k (strategy_at_start S p y f.get_num_vectors) m) f rfl rfl rfl]
  have hc : round_call S K f (strategy_after S k (strategy_at_start S p y f.get_num_vectors))
      (learner_after S K f k (strategy_at_start S p y f.get_num_vectors) m) =
      .raised code m1 := hcall
  rw [hc]
  simp only [Outcome.bind, self_at_start, List.nil_append, strategy_after_succ]

/-- When the strategy reports `R` rounds and all of them complete, `train_machine` returns
`true` as soon as the fuel exceeds `R`. -/
theorem train_machine_returns (S : MulticlassStrategy P) (K : Machine M Row) (fuel : Nat)
    (self : LinearMulticlassMachine P M Row) (f : DotFeatures Row) (p : P)
    (y : MulticlassLabels) (m : M) (R : Nat)
    (hp : self.m_multiclass_strategy = some p)
    (hl : self.m_labels = some (.multiclass y))
    (hm : self.m_machine = some m)
    (hR : R < fuel)
    (hrep : reports_rounds S (strategy_at_start S p y f.get_num_vectors) R)
    (hall : ∀ j, j < R →
      round_completes S K f (strategy_at_start S p y f.get_num_vectors) m j) :
    ∃ self1, train_machine S K fuel self (some (.dot f)) = .ret true self1 := by
  rw [train_machine_eq S K fuel self f p y hp hl]
  obtain ⟨n, hn⟩ : ∃ n, fuel = (n + 1) + R := ⟨fuel - R - 1, by omega⟩
  subst hn
  rw [train_loop_unroll S K f R (n + 1) (self_at_start S self f p y)
    (strategy_at_start S p y f.get_num_vectors) m rfl hm rfl
    (fun j hj => ⟨hrep.1 j hj, hall j hj⟩)]
  rw [train_loop]
  simp only [self_after, hrep.2, Bool.false_eq_true, ite_false, Outcome.bind, finish_training]
  exact ⟨_, rfl⟩

end loop

/-! ## The loop over the store of learner objects -/

section store
variable {P M Row : Type}

theorem store_lookup_lt (store : List M) (a : Nat) (m : M) (h : store[a]? = some m) :
    a < store.length := by
  by_contra hlt
  rw [List.getElem?_eq_none (Nat.le_of_not_lt hlt)] at h
  exact absurd h (by simp)

/-- With an independent clone, `get_machine_from_trained` allocates the copy of the
parameters at the end of the store and hands back its address. -/
theorem shared_get_machine_from_trained_eq (K : Machine M Row) (C : CloneCall M)
    (hC : clone_is_independent K C) (store : List M) (a : Nat) (m : M)
    (h : store[a]? = some m) :
    shared.get_machine_from_trained K C store a =
      (store ++ [K.clone m], if K.is_linear (K.clone m) then some store.length else none) := by
  unfold shared.get_machine_from_trained
  rw [hC store a m h]
  simp only [List.getElem?_append_right (Nat.le_refl store.length), Nat.sub_self,
    List.getElem?_cons_zero]
  by_cases hl : K.is_linear (K.clone m) = true <;> simp [hl]

/-- One pass through the loop body over the store, with an independent clone: the training
call writes the object of the live learner, the clone is a new object at the end of the
store, and its address is appended to the registry. -/
theorem shared_train_round_ref (S : MulticlassStrategy P) (K : Machine M Row)
    (C : CloneCall M) (hC : clone_is_independent K C)
    (st : Linked P M Row) (x : P × List Int) (a : Nat) (m : M) (f : DotFeatures Row)
    (hp : st.self.m_multiclass_strategy = some x.1) (hm : st.self.m_machine = some a)
    (ha : st.store[a]? = some m) (hf : st.self.m_features = some f) :
    shared.train_round S K C st ⟨x.2, ⟨[]⟩⟩ =
      match round_call S K f x m with
      | .raised code m1 =>
        .raised (.base_learner code)
          ⟨{ st.self with m_multiclass_strategy := some (strategy_next S x).1,
                          m_features := some (round_features f (round_subset S x)) },
            st.store.set a m1⟩
      | .returned _ m1 =>
        if K.is_linear (K.clone m1) then
          .ret ⟨(strategy_next S x).2, ⟨[]⟩⟩
            ⟨{ st.self with m_multiclass_strategy := some (strategy_next S x).1,
                            m_machines := st.self.m_machines ++ [st.store.length] },
              st.store.set a m1 ++ [K.clone m1]⟩
        else
          .raised .type_error
            ⟨{ st.self with m_multiclass_strategy := some (strategy_next S x).1,
                            m_features := some (round_features f (round_subset S x)) },
              st.store.set a m1 ++ [K.clone m1]⟩ := by
  obtain ⟨⟨sp, sm, sl, sr, sf⟩, store⟩ := st
  simp only at hp hm ha hf
  subst hp hm hf
  have hlt : a < store.length := store_lookup_lt store a m ha
  have hget : ∀ m1, (store.set a m1)[a]? = some m1 := fun m1 => List.getElem?_set_self hlt
  rcases hn : S.train_prepare_next x.1 x.2 with ⟨p1, v1, s⟩
  unfold shared.train_round prepare_round
  simp only [round_call, strategy_next, round_subset, hn]
  by_cases hs : s.length = 0
  · simp only [hs, ne_eq, not_true_eq_false, ite_false, Outcome.bind, shared.with_store,
      shared.train_and_store, ha, round_features, round_labels, restore_round]
    cases K.train m f ⟨v1, ⟨[]⟩⟩ with
    | raised c m1 => rfl
    | returned b m1 =>
      simp only [shared_get_machine_from_trained_eq K C hC _ a m1 (hget m1), List.length_set]
      by_cases hl : K.is_linear (K.clone m1) = true
      · simp [hl, shared.with_store]
      · simp [hl]
  · simp only [hs, ne_eq, not_false_eq_true, ite_true, Outcome.bind, shared.with_store,
      shared.train_and_store, ha, round_features, round_labels, restore_round,
      add_machine_subset]
    cases K.train m (f.add_subset s) (BinaryLabels.add_subset ⟨v1, ⟨[]⟩⟩ s) with
    | raised c m1 => rfl
    | returned b m1 =>
      simp only [shared_get_machine_from_trained_eq K C hC _ a m1 (hget m1), List.length_set]
      by_cases hl : K.is_linear (K.clone m1) = true
      · simp [hl, shared.with_store, labels_remove_subset_add_subset, remove_machine_subset,
          features_remove_subset_add_subset, Outcome.bind]
      · simp [hl]

theorem store_set_lookup (store : List M) (a : Nat) (m : M) (h : store[a]? = some m) :
    store.set a m = store := by
  apply List.ext_getElem?
  intro i
  by_cases hi : a = i
  · subst hi
    rw [List.getElem?_set_self (store_lookup_lt store a m h), h]
  · rw [List.getElem?_set_ne hi]

theorem linked_after_zero (S : MulticlassStrategy P) (K : Machine M Row) (f : DotFeatures Row)
    (st : Linked P M Row) (x : P × List Int) (a : Nat) (m : M)
    (hp : st.self.m_multiclass_strategy = some x.1) (ha : st.store[a]? = some m) :
    linked_after S K f st x a m 0 = st := by
  obtain ⟨⟨sp, sm, sl, sr, sf⟩, store⟩ := st
  simp only at hp ha
  subst hp
  simp [linked_after, strategy_after, learner_after, store_set_lookup store a m ha]

theorem linked_after_succ (S : MulticlassStrategy P) (K : Machine M Row) (f : DotFeatures Row)
    (st : Linked P M Row) (x : P × List Int) (a : Nat) (m : M) (k : Nat)
    (hlt : a < st.store.length) :
    linked_after S K f
        ⟨{ st.self with m_multiclass_strategy := some (strategy_next S x).1,
                        m_machines := st.self.m_machines ++ [st.store.length] },
          st.store.set a (round_call S K f x m).learner ++
            [K.clone (round_call S K f x m).learner]⟩
        (strategy_next S x) a (round_call S K f x m).learner k =
      linked_after S K f st x a m (k + 1) := by
  have hlt1 : a < (st.store.set a (round_call S K f x m).learner).length := by
    rw [List.length_set]; exact hlt
  simp only [linked_after, strategy_after, learner_after, List.range_succ_eq_map,
    List.map_cons, List.map_map, List.append_assoc, List.singleton_append,
    List.set_append_left _ _ hlt1, List.set_set, List.length_append, List.length_set,
    List.length_singleton]
  have hidx : ∀ j, st.store.length + 1 + j = st.store.length + (j + 1) := by
    intro j; omega
  simp only [hidx, Nat.add_zero, Function.comp_def, Nat.succ_eq_add_one]
  rfl

/-- When the loop over the store returns, with an independent clone, it ran some number `R`
of rounds that the strategy reports, all of them completed, and it left the state
`linked_after` of the reference run after `R` rounds. -/
theorem shared_train_loop_ret (S : MulticlassStrategy P) (K : Machine M Row)
    (C : CloneCall M) (hC : clone_is_independent K C) (f : DotFeatures Row) (a : Nat) :
    ∀ (fuel : Nat) (st : Linked P M Row) (x : P × List Int) (m : M)
      (l1 : BinaryLabels) (st1 : Linked P M Row),
      st.self.m_multiclass_strategy = some x.1 → st.self.m_machine = some a →
      st.store[a]? = some m → st.self.m_features = some f →
      shared.train_loop S K C fuel st ⟨x.2, ⟨[]⟩⟩ = .ret l1 st1 →
      ∃ R, R < fuel ∧ reports_rounds S x R ∧ (∀ j, j < R → round_completes S K f x m j) ∧
        st1 = linked_after S K f st x a m R := by
  intro fuel
  induction fuel with
  | zero => intro st x m l1 st1 _ _ _ _ h; simp [shared.train_loop] at h
  | succ n ih =>
    intro st x m l1 st1 hp hm ha hf h
    have hlt : a < st.store.length := store_lookup_lt st.store a m ha
    unfold shared.train_loop at h
    simp only [hp] at h
    by_cases hmore : S.train_has_more x.1 = true
    · simp only [hmore, ite_true] at h
      rw [shared_train_round_ref S K C hC st x a m f hp hm ha hf] at h
      cases hc : round_call S K f x m with
      | raised c m1 => simp [hc, Outcome.bind] at h
      | returned b m1 =>
        simp only [hc] at h
        by_cases hl : K.is_linear (K.clone m1) = true
        · simp only [hl, ite_true, Outcome.bind] at h
          have hlearn : (round_call S K f x m).learner = m1 := by rw [hc]; rfl
          have ha1 : (st.store.set a m1 ++ [K.clone m1])[a]? = some m1 := by
            rw [List.getElem?_append_left (by rw [List.length_set]; exact hlt)]
            exact List.getElem?_set_self hlt
          obtain ⟨R, hR, hrep, hcomp, hst⟩ :=
            ih (Linked.mk
                { st.self with
                    m_multiclass_strategy := some (strategy_next S x).1
                    m_machines := st.self.m_machines ++ [st.store.length] }
                (st.store.set a m1 ++ [K.clone m1]))
              (strategy_next S x) m1 l1 st1 rfl hm ha1 hf h
          refine ⟨R + 1, Nat.succ_lt_succ hR, ⟨?_, hrep.2⟩, ?_, ?_⟩
          · intro j hj
            cases j with
            | zero => exact hmore
            | succ j => exact hrep.1 j (Nat.lt_of_succ_lt_succ hj)
          · intro j hj
            cases j with
            | zero =>
              refine ⟨⟨b, ?_⟩, ?_⟩
              · simp only [call_of_round, strategy_after, learner_after, hc]
                rfl
              · simp only [learner_after, hlearn]; exact hl
            | succ j =>
              have := hcomp j (Nat.lt_of_succ_lt_succ hj)
              simpa only [round_completes, call_of_round, strategy_after, learner_after,
                hlearn] using this
          · rw [hst, ← linked_after_succ S K f st x a m R hlt, hlearn]
        · simp [hl, Outcome.bind] at h
    · simp only [hmore, Bool.false_eq_true, ite_false] at h
      injection h with h1 h2
      refine ⟨0, Nat.succ_pos n, ⟨?_, ?_⟩, ?_, ?_⟩
      · intro j hj; exact absurd hj (Nat.not_lt_zero j)
      · simpa [strategy_after] using hmore
      · intro j hj; exact absurd hj (Nat.not_lt_zero j)
      · rw [linked_after_zero S K f st x a m hp ha]; exact h2.symm

theorem allocating_clone_is_independent (K : Machine M Row) :
    clone_is_independent K (allocating_clone K) := by
  intro store a m h
  simp [allocating_clone, h]

/-- With strategy and multiclass labels bound, `train_machine` over the store is the loop run
from `linked_at_start`, followed by `train_stop`. -/
theorem shared_train_machine_eq (S : MulticlassStrategy P) (K : Machine M Row)
    (C : CloneCall M) (fuel : Nat) (st : Linked P M Row) (f : DotFeatures Row) (p : P)
    (y : MulticlassLabels)
    (hp : st.self.m_multiclass_strategy = some p)
    (hl : st.self.m_labels = some (.multiclass y)) :
    shared.train_machine S K C fuel st (some (.dot f)) =
      (shared.train_loop S K C fuel (linked_at_start S st f p y)
        ⟨(strategy_at_start S p y f.get_num_vectors).2, ⟨[]⟩⟩).bind
        (fun _ st6 => linked_finish_training S st6) := by
  obtain ⟨⟨sp, sm, sl, sr, sf⟩, store⟩ := st
  simp only at hp hl
  subst hp hl
  rfl

/-- When the first `k` rounds of the reference run are requested by the strategy and
complete, the loop over the store reaches `linked_after` for `k` rounds. -/
theorem shared_train_loop_unroll (S : MulticlassStrategy P) (K : Machine M Row)
    (C : CloneCall M) (hC : clone_is_independent K C) (f : DotFeatures Row) (a : Nat) :
    ∀ (k fuel : Nat) (st : Linked P M Row) (x : P × List Int) (m : M),
      st.self.m_multiclass_strategy = some x.1 → st.self.m_machine = some a →
      st.store[a]? = some m → st.self.m_features = some f →
      (∀ j, j < k → S.train_has_more (strategy_after S j x).1 = true ∧
        round_completes S K f x m j) →
      shared.train_loop S K C (fuel + k) st ⟨x.2, ⟨[]⟩⟩ =
        shared.train_loop S K C fuel (linked_after S K f st x a m k)
          ⟨(strategy_after S k x).2, ⟨[]⟩⟩ := by
  intro k
  induction k with
  | zero =>
    intro fuel st x m hp _ ha _ _
    rw [linked_after_zero S K f st x a m hp ha]
    rfl
  | succ k ih =>
    intro fuel st x m hp hm ha hf hall
    have hlt : a < st.store.length := store_lookup_lt st.store a m ha
    obtain ⟨hmore, ⟨b, hcall⟩, hlin⟩ := hall 0 (Nat.succ_pos k)
    have hmore1 : S.train_has_more x.1 = true := hmore
    obtain ⟨m1, hm1⟩ : ∃ m1, (round_call S K f x m).learner = m1 := ⟨_, rfl⟩
    have hc : round_call S K f x m = .returned b m1 := by
      rw [← hm1]; exact hcall
    have hlin1 : K.is_linear (K.clone m1) = true := by
      rw [← hm1]; exact hlin
    have ha1 : (st.store.set a m1 ++ [K.clone m1])[a]? = some m1 := by
      rw [List.getElem?_append_left (by rw [List.length_set]; exact hlt)]
      exact List.getElem?_set_self hlt
    have hstep : shared.train_loop S K C (fuel + (k + 1)) st ⟨x.2, ⟨[]⟩⟩ =
        shared.train_loop S K C (fuel + k)
          (Linked.mk
            { st.self with
                m_multiclass_strategy := some (strategy_next S x).1
                m_machines := st.self.m_machines ++ [st.store.length] }
            (st.store.set a m1 ++ [K.clone m1]))
          ⟨(strategy_next S x).2, ⟨[]⟩⟩ := by
      show shared.train_loop S K C ((fuel + k) + 1) st ⟨x.2, ⟨[]⟩⟩ = _
      rw [shared.train_loop]
      simp only [hp, hmore1, ite_true]
      rw [shared_train_round_ref S K C hC st x a m f hp hm ha hf, hc]
      simp only [hlin1, ite_true, Outcome.bind]
    rw [hstep, ih fuel
      (Linked.mk
        { st.self with
            m_multiclass_strategy := some (strategy_next S x).1
            m_machines := st.self.m_machines ++ [st.store.length] }
        (st.store.set a m1 ++ [K.clone m1]))
      (strategy_next S x) m1 rfl hm ha1 hf]
    · rw [← hm1, linked_after_succ S K f st x a m k hlt]
      rfl
    · intro j hj
      have := hall (j + 1) (Nat.succ_lt_succ hj)
      rw [← hm1]
      simpa only [round_completes, call_of_round, strategy_after, learner_after] using this

/-- Over the store, when the strategy reports `R` rounds and all of them complete,
`train_machine` returns `true` as soon as the fuel exceeds `R`. -/
theorem shared_train_machine_returns (S : MulticlassStrategy P) (K : Machine M Row)
    (C : CloneCall M) (hC : clone_is_independent K C) (fuel : Nat) (st : Linked P M Row)
    (f : DotFeatures Row) (p : P) (y : MulticlassLabels) (a : Nat) (m : M) (R : Nat)
    (hp : st.self.m_multiclass_strategy = some p)
    (hl : st.self.m_labels = some (.multiclass y))
    (hm : st.self.m_machine = some a) (ha : st.store[a]? = some m)
    (hR : R < fuel)
    (hrep : reports_rounds S (strategy_at_start S p y f.get_num_vectors) R)
    (hall : ∀ j, j < R →
      round_completes S K f (strategy_at_start S p y f.get_num_vectors) m j) :
    ∃ st1, shared.train_machine S K C fuel st (some (.dot f)) = .ret true st1 := by
  rw [shared_train_machine_eq S K C fuel st f p y hp hl]
  obtain ⟨n, hn⟩ : ∃ n, fuel = (n + 1) + R := ⟨fuel - R - 1, by omega⟩
  subst hn
  rw [shared_train_loop_unroll S K C hC f a R (n + 1) (linked_at_start S st f p y)
    (strategy_at_start S p y f.get_num_vectors) m rfl hm ha rfl
    (fun j hj => ⟨hrep.1 j hj, hall j hj⟩)]
  rw [shared.train_loop]
  simp only [linked_after, hrep.2, Bool.false_eq_true, ite_false, Outcome.bind,
    linked_finish_training]
  exact ⟨_, rfl⟩

/-- After a returning run over the store with an independent clone: the registry has one
entry per reported round, and entry `k` is an object of its own that holds the clone taken
after round `k`. -/
theorem shared_registry_entry_after_train (S : MulticlassStrategy P)
    (K : Machine M Row) (C : CloneCall M) (fuel : Nat) (st st1 : Linked P M Row)
    (f : DotFeatures Row) (p : P) (y : MulticlassLabels) (a : Nat) (m : M) (R k : Nat)
    (hC : clone_is_independent K C)
    (hp : st.self.m_multiclass_strategy = some p)
    (hl : st.self.m_labels = some (.multiclass y))
    (hm : st.self.m_machine = some a) (ha : st.store[a]? = some m)
    (hR : reports_rounds S (strategy_at_start S p y f.get_num_vectors) R)
    (hs : shared.train_machine S K C fuel st (some (.dot f)) = .ret true st1)
    (hk : k < R) :
    st1.self.m_machines.length = R ∧
      st1.self.m_machine = some a ∧
      ∃ c, st1.self.m_machines[k]? = some c ∧ c ≠ a ∧
        st1.store[c]? = some (K.clone
          (call_of_round S K f k (strategy_at_start S p y f.get_num_vectors) m).learner) ∧
        (∃ b m1, call_of_round S K f k (strategy_at_start S p y f.get_num_vectors) m =
          .returned b m1) ∧
        ∀ j, j ≠ k → st1.self.m_machines[j]? ≠ some c := by
  rw [shared_train_machine_eq S K C fuel st f p y hp hl] at hs
  cases hloop : shared.train_loop S K C fuel (linked_at_start S st f p y)
      ⟨(strategy_at_start S p y f.get_num_vectors).2, ⟨[]⟩⟩ with
  | raised e s2 => simp [hloop, Outcome.bind] at hs
  | null_deref => simp [hloop, Outcome.bind] at hs
  | no_fuel => simp [hloop, Outcome.bind] at hs
  | ret l2 st2 =>
    simp only [hloop, Outcome.bind] at hs
    obtain ⟨R1, _, hrep, hcomp, hst2⟩ := shared_train_loop_ret S K C hC f a fuel
      (linked_at_start S st f p y) (strategy_at_start S p y f.get_num_vectors) m l2 st2
      rfl hm ha rfl hloop
    have hRR : R1 = R := reports_rounds_unique S _ R1 R hrep hR
    subst hRR
    have hlt : a < st.store.length := store_lookup_lt st.store a m ha
    have hreg : st1.self.m_machines =
        (List.range R1).map (fun j => st.store.length + j) := by
      unfold linked_finish_training at hs
      cases hp2 : st2.self.m_multiclass_strategy with
      | none => simp [hp2] at hs
      | some p2 =>
        simp only [hp2] at hs
        injection hs with _ hs2
        rw [← hs2, hst2]
        simp [linked_after, linked_at_start, self_at_start]
    have hstore : st1.store =
        st.store.set a (learner_after S K f R1 (strategy_at_start S p y f.get_num_vectors) m) ++
          (List.range R1).map (fun j => K.clone
            (learner_after S K f (j + 1) (strategy_at_start S p y f.get_num_vectors) m)) := by
      unfold linked_finish_training at hs
      cases hp2 : st2.self.m_multiclass_strategy with
      | none => simp [hp2] at hs
      | some p2 =>
        simp only [hp2] at hs
        injection hs with _ hs2
        rw [← hs2, hst2]
        rfl
    have hlive : st1.self.m_machine = some a := by
      unfold linked_finish_training at hs
      cases hp2 : st2.self.m_multiclass_strategy with
      | none => simp [hp2] at hs
      | some p2 =>
        simp only [hp2] at hs
        injection hs with _ hs2
        rw [← hs2, hst2]
        exact hm
    refine ⟨by rw [hreg]; simp, hlive, st.store.length + k, ?_, ?_, ?_, ?_, ?_⟩
    · rw [hreg]
      simp [List.getElem?_map, List.getElem?_range hk]
    · omega
    · rw [hstore, List.getElem?_append_right (by rw [List.length_set]; omega),
        ← learner_after_succ]
      simp [List.getElem?_map, List.getElem?_range hk]
    · obtain ⟨⟨b, hb⟩, _⟩ := hcomp k hk
      exact ⟨b, _, hb⟩
    · intro j hjk hj
      rw [hreg] at hj
      by_cases hjR : j < R1
      · simp [List.getElem?_map, List.getElem?_range hjR] at hj
        exact hjk hj
      · simp [List.getElem?_eq_none (by simpa using Nat.le_of_not_lt hjR :
          ((List.range R1).map (fun j => st.store.length + j)).length ≤ j)] at hj

/-- C8: after a successful `train_machine` over the `R` rounds the strategy reports, with
`clone` returning an independent instance, the registry holds `R` entries, and for every `k`
below the round count the entry at index `k` (0-based) points to an object of its own,
different from the live learner and from every other entry, which in the store left by the
whole run still holds the parameters-only clone of the learner state left by the training
call of round `k`: the entries are in round order and the training calls of the later rounds
have not changed them.  Such a run does return `true` when each of the `R` rounds completes
and the fuel exceeds `R`. -/
theorem train_registry_entry_is_independent_round_clone (S : MulticlassStrategy P)
    (K : Machine M Row) (C : CloneCall M) (fuel : Nat) (st : Linked P M Row)
    (f : DotFeatures Row) (p : P) (y : MulticlassLabels) (a : Nat) (m : M) (R : Nat)
    (hC : clone_is_independent K C)
    (hp : st.self.m_multiclass_strategy = some p)
    (hl : st.self.m_labels = some (.multiclass y))
    (hm : st.self.m_machine = some a) (ha : st.store[a]? = some m)
    (hR : reports_rounds S (strategy_at_start S p y f.get_num_vectors) R) :
    (∀ st1, shared.train_machine S K C fuel st (some (.dot f)) = .ret true st1 →
      ∀ k, k < R →
        st1.self.m_machines.length = R ∧
        st1.self.m_machine = some a ∧
        ∃ c, st1.self.m_machines[k]? = some c ∧ c ≠ a ∧
          st1.store[c]? = some (K.clone
            (call_of_round S K f k (strategy_at_start S p y f.get_num_vectors) m).learner) ∧
          (∃ b m1, call_of_round S K f k (strategy_at_start S p y f.get_num_vectors) m =
            .returned b m1) ∧
          ∀ j, j ≠ k → st1.self.m_machines[j]? ≠ some c) ∧
    (R < fuel →
      (∀ j, j < R → round_completes S K f (strategy_at_start S p y f.get_num_vectors) m j) →
      ∃ st1, shared.train_machine S K C fuel st (some (.dot f)) = .ret true st1) :=
  ⟨fun st1 hs k hk =>
      shared_registry_entry_after_train S K C fuel st st1 f p y a m R k hC hp hl hm ha hR hs hk,
    fun hfuel hall =>
      shared_train_machine_returns S K C hC fuel st f p y a m R hp hl hm ha hfuel hR hall⟩

end store

/-! ## The registry after training -/

section registry
variable {P M Row : Type}

/-- C1: when the strategy reports `R` rounds (`train_has_more` is true before each of the
first `R` rounds and false after them, `R = 0` included) and `train_machine` returns `true`,
the registry `m_machines` holds exactly `R` submodels afterwards, whatever it held before
the call.  The call does return `true` when a base learner is bound, each of the `R` rounds
completes and the fuel exceeds `R`. -/
theorem train_registry_count_eq_rounds (S : MulticlassStrategy P) (K : Machine M Row)
    (fuel : Nat) (self : LinearMulticlassMachine P M Row) (f : DotFeatures Row) (p : P)
    (y : MulticlassLabels) (R : Nat)
    (hp : self.m_multiclass_strategy = some p)
    (hl : self.m_labels = some (.multiclass y))
    (hR : reports_rounds S (strategy_at_start S p y f.get_num_vectors) R) :
    (∀ self1, train_machine S K fuel self (some (.dot f)) = .ret true self1 →
      self1.m_machines.length = R) ∧
    (∀ m, self.m_machine = some m → R < fuel →
      (∀ j, j < R → round_completes S K f (strategy_at_start S p y f.get_num_vectors) m j) →
      ∃ self1, train_machine S K fuel self (some (.dot f)) = .ret true self1 ∧
        self1.m_machines.length = R) := by
  have hcount : ∀ self1, train_machine S K fuel self (some (.dot f)) = .ret true self1 →
      self1.m_machines.length = R := by
    intro self1 hs
    obtain ⟨_, R1, _, hrep, _, hlen, _⟩ :=
      train_machine_ret S K fuel self self1 f p y true hp hl hs
    rw [hlen]
    exact reports_rounds_unique S _ R1 R hrep hR
  refine ⟨hcount, ?_⟩
  intro m hm hfuel hall
  obtain ⟨self1, hs⟩ := train_machine_returns S K fuel self f p y m R hp hl hm hfuel hR hall
  exact ⟨self1, hs, hcount self1 hs⟩

/-- C9: a successful `train_machine` resets the registry: when training from a state whose
registry holds `prior` returns, training from the same state with an empty registry returns
the same result and the same final state, registry included. -/
theorem train_forgets_prior_registry (S : MulticlassStrategy P) (K : Machine M Row)
    (fuel : Nat) (self self1 : LinearMulticlassMachine P M Row) (prior : List M)
    (data : Option (Features Row)) (b : Bool)
    (hs : train_machine S K fuel { self with m_machines := prior } data = .ret b self1) :
    train_machine S K fuel { self with m_machines := [] } data = .ret b self1 := by
  obtain ⟨f, p, y, hd, hp, hl⟩ := train_machine_ret_inv S K fuel _ self1 data b hs
  subst hd
  rw [train_machine_eq S K fuel _ f p y hp hl] at hs
  rw [train_machine_eq S K fuel { self with m_machines := [] } f p y hp hl]
  exact hs

end registry

/-! ## Failure of the training call -/

section failure
variable {P M Row : Type}

/-- C2 (amended): when `train_machine` returns, the features it leaves bound are the supplied
ones with the subset stack as it was before the call; when the training call of a round
raises, nothing is unwound: the features are left with the view of that round, that is with
the subset of the round still pushed when it is not empty. -/
theorem train_restores_views_unless_raise (S : MulticlassStrategy P) (K : Machine M Row)
    (fuel : Nat) (self : LinearMulticlassMachine P M Row) (f : DotFeatures Row) :
    (∀ b self1, train_machine S K fuel self (some (.dot f)) = .ret b self1 →
      self1.m_features = some f) ∧
    (∀ p y m m1 k code,
      self.m_multiclass_strategy = some p → self.m_labels = some (.multiclass y) →
      self.m_machine = some m → k < fuel →
      (∀ j, j < k →
        S.train_has_more
          (strategy_after S j (strategy_at_start S p y f.get_num_vectors)).1 = true ∧
        round_completes S K f (strategy_at_start S p y f.get_num_vectors) m j) →
      S.train_has_more
        (strategy_after S k (strategy_at_start S p y f.get_num_vectors)).1 = true →
      call_of_round S K f k (strategy_at_start S p y f.get_num_vectors) m = .raised code m1 →
      ∃ self1, train_machine S K fuel self (some (.dot f)) = .raised (.base_learner code) self1 ∧
        self1.m_features = some (round_features f
          (round_subset S (strategy_after S k (strategy_at_start S p y f.get_num_vectors))))) := by
  refine ⟨?_, ?_⟩
  · intro b self1 hs
    obtain ⟨f1, p, y, hd, hp, hl⟩ := train_machine_ret_inv S K fuel self self1 _ b hs
    obtain ⟨_, R, _, _, hfeat, _⟩ := train_machine_ret S K fuel self self1 f p y b hp hl hs
    exact hfeat
  · intro p y m m1 k code hp hl hm hk hall hmore hcall
    exact ⟨_, train_machine_raise S K fuel self f p y m m1 k code hp hl hm hk hall hmore hcall,
      rfl⟩

/-- C3 (amended): when the first `k` rounds complete and the training call of the next round
(round `k + 1` counted from 1) raises, `train_machine` raises that error instead of
returning, and the registry holds exactly the `k` clones of the completed rounds, in round
order. -/
theorem train_raise_keeps_completed_rounds (S : MulticlassStrategy P) (K : Machine M Row)
    (fuel : Nat) (self : LinearMulticlassMachine P M Row) (f : DotFeatures Row) (p : P)
    (y : MulticlassLabels) (m m1 : M) (k code : Nat)
    (hp : self.m_multiclass_strategy = some p)
    (hl : self.m_labels = some (.multiclass y))
    (hm : self.m_machine = some m)
    (hk : k < fuel)
    (hall : ∀ j, j < k →
      S.train_has_more (strategy_after S j (strategy_at_start S p y f.get_num_vectors)).1 = true ∧
      round_completes S K f (strategy_at_start S p y f.get_num_vectors) m j)
    (hmore : S.train_has_more
      (strategy_after S k (strategy_at_start S p y f.get_num_vectors)).1 = true)
    (hcall : call_of_round S K f k (strategy_at_start S p y f.get_num_vectors) m =
      .raised code m1) :
    ∃ self1, train_machine S K fuel self (some (.dot f)) = .raised (.base_learner code) self1 ∧
      self1.m_machines.length = k ∧
      ∀ j, j < k → self1.m_machines[j]? = some (K.clone
        (call_of_round S K f j (strategy_at_start S p y f.get_num_vectors) m).learner) := by
  refine ⟨_, train_machine_raise S K fuel self f p y m m1 k code hp hl hm hk hall hmore hcall,
    ?_, ?_⟩
  · simp
  · intro j hj
    simp only [← learner_after_succ]
    simp [List.getElem?_map, List.getElem?_range hj]

end failure

/-! ## Views of a round -/

section round_views
variable {P M Row : Type}

/-- C6: in a round for which the strategy returns a non-empty subset `s`, the training call
of the base learner receives the features narrowed by `s` and the binary labels narrowed by
the same `s`; each view shows exactly `|s|` rows, and row `i` of either view is row `s[i]` of
the view before the round; when the round has ended, `get_num_rhs_vectors` returns its value
from before the round. -/
theorem round_with_subset_narrows_both_views (S : MulticlassStrategy P) (K : Machine M Row)
    (self : LinearMulticlassMachine P M Row) (l : BinaryLabels) (p p1 : P) (m : M)
    (f : DotFeatures Row) (v1 : List Int) (s : List Nat)
    (hp : self.m_multiclass_strategy = some p) (hm : self.m_machine = some m)
    (hf : self.m_features = some f)
    (hn : S.train_prepare_next p l.m_labels = (p1, v1, s)) (hs : s ≠ []) :
    prepare_round S self l =
        .ret (BinaryLabels.add_subset { l with m_labels := v1 } s, s)
          { self with m_multiclass_strategy := some p1, m_features := some (f.add_subset s) } ∧
      train_round S K self l =
        (match K.train m (f.add_subset s) (BinaryLabels.add_subset { l with m_labels := v1 } s) with
        | .raised code m1 =>
          .raised (.base_learner code)
            { self with m_multiclass_strategy := some p1, m_machine := some m1,
                        m_features := some (f.add_subset s) }
        | .returned _ m1 =>
          if K.is_linear (K.clone m1) then
            .ret { l with m_labels := v1 }
              { self with m_multiclass_strategy := some p1, m_machine := some m1,
                          m_machines := self.m_machines ++ [K.clone m1] }
          else
            .raised .type_error
              { self with m_multiclass_strategy := some p1, m_machine := some m1,
                          m_features := some (f.add_subset s) }) ∧
      (f.add_subset s).get_num_vectors = s.length ∧
      (BinaryLabels.add_subset { l with m_labels := v1 } s).get_num_labels = s.length ∧
      (∀ i, (f.add_subset s).get_feature_vector i = (s[i]?).bind f.get_feature_vector) ∧
      (∀ i, (BinaryLabels.add_subset { l with m_labels := v1 } s).get_label i =
        (s[i]?).bind (BinaryLabels.get_label { l with m_labels := v1 })) ∧
      (∀ l1 self1, train_round S K self l = .ret l1 self1 →
        get_num_rhs_vectors self1 = .ret f.get_num_vectors self1) := by
  have hlen : s.length ≠ 0 := fun h => hs (List.length_eq_zero.mp h)
  have hround := train_round_eq S K self l p m f hp hm hf
  simp only [hn, round_features, round_labels, hlen, ne_eq, not_false_eq_true, ite_true]
    at hround
  refine ⟨?_, hround, rfl, rfl, ?_, ?_, ?_⟩
  · obtain ⟨sp, sm, sl, sr, sf⟩ := self
    simp only at hp hm hf
    subst hp hm hf
    unfold prepare_round
    simp only [hn, hlen, ne_eq, not_false_eq_true, ite_true, add_machine_subset, Outcome.bind]
  · exact features_get_feature_vector_add_subset f s
  · exact labels_get_label_add_subset _ s
  · intro l1 self1 h
    rw [hround] at h
    cases hc : K.train m (f.add_subset s)
        (BinaryLabels.add_subset { l with m_labels := v1 } s) with
    | raised c m1 => simp [hc] at h
    | returned b m1 =>
      simp only [hc] at h
      by_cases hl : K.is_linear (K.clone m1) = true
      · simp only [hl, ite_true] at h
        injection h with h1 h2
        subst h2
        simp only [get_num_rhs_vectors, hf]
      · simp [hl] at h

/-- C7: in a round for which the strategy returns the empty subset, nothing is pushed on the
features or on the binary labels before the training call and nothing is popped after it: the
base learner is called on the features as they were before the round and on the label
buffer with its subset stack as before the round. -/
theorem round_without_subset_keeps_views (S : MulticlassStrategy P) (K : Machine M Row)
    (self : LinearMulticlassMachine P M Row) (l : BinaryLabels) (p p1 : P) (m : M)
    (f : DotFeatures Row) (v1 : List Int)
    (hp : self.m_multiclass_strategy = some p) (hm : self.m_machine = some m)
    (hf : self.m_features = some f)
    (hn : S.train_prepare_next p l.m_labels = (p1, v1, [])) :
    prepare_round S self l =
        .ret ({ l with m_labels := v1 }, []) { self with m_multiclass_strategy := some p1 } ∧
      (∀ (self2 : LinearMulticlassMachine P M Row) (l2 : BinaryLabels),
        restore_round self2 l2 [] = .ret l2 self2) ∧
      train_round S K self l =
        (match K.train m f { l with m_labels := v1 } with
        | .raised code m1 =>
          .raised (.base_learner code)
            { self with m_multiclass_strategy := some p1, m_machine := some m1 }
        | .returned _ m1 =>
          if K.is_linear (K.clone m1) then
            .ret { l with m_labels := v1 }
              { self with m_multiclass_strategy := some p1, m_machine := some m1,
                          m_machines := self.m_machines ++ [K.clone m1] }
          else
            .raised .type_error
              { self with m_multiclass_strategy := some p1, m_machine := some m1 }) := by
  have hround := train_round_eq S K self l p m f hp hm hf
  simp only [hn, round_features, round_labels, List.length_nil, ne_eq, not_true_eq_false,
    ite_false] at hround
  obtain ⟨sp, sm, sl, sr, sf⟩ := self
  simp only at hp hm hf
  subst hp hm hf
  refine ⟨?_, ?_, hround⟩
  · unfold prepare_round
    simp only [hn, List.length_nil, ne_eq, not_true_eq_false, ite_false]
  · intro self2 l2
    rfl

end round_views

/-! ## Configuration checks -/

section checks
variable {P M Row : Type}

/-- C4 (amended): when no base learner is bound, the check `init_machine_for_train` raises the
configuration error `No machine given in Multiclass constructor` and leaves the object as it
was, so the registry holds afterwards what it held before. -/
theorem init_machine_for_train_without_learner (self : LinearMulticlassMachine P M Row)
    (data : Option (Features Row)) (hm : self.m_machine = none) :
    init_machine_for_train self data =
      .raised (.configuration "No machine given in Multiclass constructor") self := by
  unfold init_machine_for_train
  simp only [hm]

/-- C5 (amended): when no strategy is bound, `train_machine` on dot features raises the
configuration error `Multiclass strategy not set`; registry, base learner, labels and
strategy are as before the call, and the supplied features have already been bound in place
of the earlier ones. -/
theorem train_without_strategy (S : MulticlassStrategy P) (K : Machine M Row) (fuel : Nat)
    (self : LinearMulticlassMachine P M Row) (f : DotFeatures Row)
    (hp : self.m_multiclass_strategy = none) :
    train_machine S K fuel self (some (.dot f)) =
      .raised (.configuration "Multiclass strategy not set")
        { self with m_features := some f } := by
  unfold train_machine
  simp only [Features.as_DotFeatures, hp]

/-- C10 (amended): when features are bound (`is_ready` is true), `get_num_rhs_vectors` returns
the number of rows visible in them and changes nothing; when no features are bound
(`is_ready` is false), it dereferences the null pointer: no error is raised and the result is
undefined. -/
theorem get_num_rhs_vectors_by_readiness (self : LinearMulticlassMachine P M Row) :
    (is_ready self = true →
      ∃ f, self.m_features = some f ∧
        get_num_rhs_vectors self = .ret f.get_num_vectors self) ∧
    (is_ready self = false →
      self.m_features = none ∧ get_num_rhs_vectors self = .null_deref) := by
  unfold is_ready get_num_rhs_vectors
  cases self.m_features with
  | none => simp
  | some f => simp

end checks

/-! ## Runs on the concrete collaborators -/

section runs
open fixture

theorem train_registry_count_eq_rounds_witness :
    (machine_with [[], [], []] (some fresh_learner) [submodel 5, submodel 6]).m_machines.length = 2 ∧
      trained_three_rounds.m_machines.length = 3 ∧
      (∃ self1, train_machine scripted recorder 10
          (machine_with [[], [], []] (some fresh_learner) [submodel 5, submodel 6])
          (some (.dot nine_rows)) = .ret true self1 ∧ self1.m_machines.length = 3) ∧
      (∃ self1, train_machine scripted recorder 10
          (machine_with [] (some fresh_learner) [submodel 5, submodel 6])
          (some (.dot nine_rows)) = .ret true self1 ∧ self1.m_machines.length = 0) :=
  ⟨rfl,
    (train_registry_count_eq_rounds scripted recorder 10
      (machine_with [[], [], []] (some fresh_learner) [submodel 5, submodel 6])
      nine_rows (script_of [[], [], []]) three_class_values 3 rfl rfl
      ⟨by intro j hj; interval_cases j <;> rfl, rfl⟩).1 trained_three_rounds (by decide),
    (train_registry_count_eq_rounds scripted recorder 10
      (machine_with [[], [], []] (some fresh_learner) [submodel 5, submodel 6])
      nine_rows (script_of [[], [], []]) three_class_values 3 rfl rfl
      ⟨by intro j hj; interval_cases j <;> rfl, rfl⟩).2 fresh_learner rfl (by decide)
      (by
        intro j hj
        interval_cases j
        · exact ⟨⟨true, by decide⟩, rfl⟩
        · exact ⟨⟨true, by decide⟩, rfl⟩
        · exact ⟨⟨true, by decide⟩, rfl⟩),
    (train_registry_count_eq_rounds scripted recorder 10
      (machine_with [] (some fresh_learner) [submodel 5, submodel 6])
      nine_rows (script_of []) three_class_values 0 rfl rfl
      ⟨fun j hj => absurd hj (Nat.not_lt_zero j), rfl⟩).2 fresh_learner rfl (by decide)
      (fun j hj => absurd hj (Nat.not_lt_zero j))⟩

theorem train_registry_entry_is_independent_round_clone_witness :
    shared.train_machine scripted recorder (allocating_clone recorder) 10
        (linked_machine [[], [], []]) (some (.dot nine_rows)) = .ret true linked_trained ∧
      linked_trained.store[0]? = some ⟨-9, [(9, 9), (9, 9), (9, 9)], none, none⟩ ∧
      linked_trained.store[4]? = some (submodel (-15)) ∧
      (linked_trained.self.m_machines.length = 3 ∧
        linked_trained.self.m_machine = some 0 ∧
        ∃ c, linked_trained.self.m_machines[1]? = some c ∧ c ≠ 0 ∧
          linked_trained.store[c]? = some (recorder.clone
            (call_of_round scripted recorder nine_rows 1
              (strategy_at_start scripted (script_of [[], [], []]) three_class_values
                nine_rows.get_num_vectors) fresh_learner).learner) ∧
          (∃ b m1, call_of_round scripted recorder nine_rows 1
              (strategy_at_start scripted (script_of [[], [], []]) three_class_values
                nine_rows.get_num_vectors) fresh_learner = .returned b m1) ∧
          ∀ j, j ≠ 1 → linked_trained.self.m_machines[j]? ≠ some c) :=
  ⟨by decide, rfl, rfl,
    (train_registry_entry_is_independent_round_clone scripted recorder
      (allocating_clone recorder) 10 (linked_machine [[], [], []]) nine_rows
      (script_of [[], [], []]) three_class_values 0 fresh_learner 3
      (allocating_clone_is_independent recorder) rfl rfl rfl rfl
      ⟨by intro j hj; interval_cases j <;> rfl, rfl⟩).1 linked_trained (by decide) 1
      (by decide)⟩

/-- With a clone call that hands back the live learner itself, the same run ends with the
three registry entries pointing at the live learner, which holds the state of the last
round and not the clone taken after round 0: independence of the clone is what keeps
the entries of the registry fixed. -/
theorem aliasing_clone_shares_the_live_learner :
    (∃ st1, shared.train_machine scripted recorder aliasing_clone 10
          (linked_machine [[], [], []]) (some (.dot nine_rows)) = .ret true st1 ∧
        st1.self.m_machines = [0, 0, 0] ∧
        st1.store[0]? = some ⟨-9, [(9, 9), (9, 9), (9, 9)], none, none⟩) ∧
      recorder.clone (call_of_round scripted recorder nine_rows 0
        (strategy_at_start scripted (script_of [[], [], []]) three_class_values 9)
        fresh_learner).learner = submodel (-21) ∧
      ¬ clone_is_independent recorder (aliasing_clone : CloneCall Recorder) := by
  refine ⟨⟨_, rfl, rfl, rfl⟩, by decide, ?_⟩
  intro h
  have := h [fresh_learner] 0 fresh_learner rfl
  simp [aliasing_clone] at this

theorem train_forgets_prior_registry_witness :
    train_machine scripted recorder 10 (machine_with [[], [], []] (some fresh_learner) [])
      (some (.dot nine_rows)) = .ret true trained_three_rounds :=
  train_forgets_prior_registry scripted recorder 10
    (machine_with [[], [], []] (some fresh_learner) []) trained_three_rounds
    [submodel 5, submodel 6] (some (.dot nine_rows)) true (by decide)

/-- C2 (counterexample): the only round has subset `[2, 5]` and its training call raises;
`train_machine` raises and leaves `[2, 5]` pushed on the features, which now show 2 rows
instead of the 9 they showed before the call. -/
theorem train_raise_leaves_subset_pushed :
    ∃ self1 f1,
      train_machine scripted recorder 10
        (machine_with [[2, 5]] (some ⟨0, [], some 1, none⟩) [])
        (some (.dot nine_rows)) = .raised (.base_learner 7) self1 ∧
      self1.m_features = some f1 ∧
      f1.m_subset_stack = ⟨[[2, 5]]⟩ ∧ f1.get_num_vectors = 2 ∧
      nine_rows.m_subset_stack = ⟨[]⟩ ∧ nine_rows.get_num_vectors = 9 :=
  ⟨_, _, rfl, rfl, rfl, rfl, rfl, rfl⟩

theorem train_restores_views_unless_raise_witness :
    trained_three_rounds.m_features = some nine_rows ∧
      ∃ self1, train_machine scripted recorder 10
          (machine_with [[2, 5]] (some ⟨0, [], some 1, none⟩) [])
          (some (.dot nine_rows)) = .raised (.base_learner 7) self1 ∧
        self1.m_features = some (nine_rows.add_subset [2, 5]) :=
  ⟨(train_restores_views_unless_raise scripted recorder 10
      (machine_with [[], [], []] (some fresh_learner) []) nine_rows).1 true
      trained_three_rounds (by decide),
    (train_restores_views_unless_raise scripted recorder 10
      (machine_with [[2, 5]] (some ⟨0, [], some 1, none⟩) []) nine_rows).2
      (script_of [[2, 5]]) three_class_values ⟨0, [], some 1, none⟩
      ⟨-9, [(2, 2)], some 1, none⟩ 0 7 rfl rfl rfl (by decide)
      (fun j hj => absurd hj (Nat.not_lt_zero j)) rfl (by decide)⟩

/-- C3 (counterexample): the training call of round 2 of 3 returns `false`; the loop does not
look at the returned `bool`, so `train_machine` returns `true` and the registry holds 3
submodels. -/
theorem train_ignores_false_from_learner :
    (∃ m1, call_of_round scripted recorder nine_rows 1
        (strategy_at_start scripted (script_of [[], [], []]) three_class_values 9)
        ⟨0, [], none, some 2⟩ = .returned false m1) ∧
      ∃ self1, train_machine scripted recorder 10
          (machine_with [[], [], []] (some ⟨0, [], none, some 2⟩) [])
          (some (.dot nine_rows)) = .ret true self1 ∧
        self1.m_machines.length = 3 :=
  ⟨⟨_, rfl⟩, _, rfl, rfl⟩

theorem train_raise_keeps_completed_rounds_witness :
    ∃ self1, train_machine scripted recorder 10
        (machine_with [[], [], []] (some ⟨0, [], some 2, none⟩) [submodel 5, submodel 6])
        (some (.dot nine_rows)) = .raised (.base_learner 7) self1 ∧
      self1.m_machines.length = 1 ∧
      ∀ j, j < 1 → self1.m_machines[j]? = some (recorder.clone
        (call_of_round scripted recorder nine_rows j
          (strategy_at_start scripted (script_of [[], [], []]) three_class_values
            nine_rows.get_num_vectors) ⟨0, [], some 2, none⟩).learner) :=
  train_raise_keeps_completed_rounds scripted recorder 10
    (machine_with [[], [], []] (some ⟨0, [], some 2, none⟩) [submodel 5, submodel 6])
    nine_rows (script_of [[], [], []]) three_class_values ⟨0, [], some 2, none⟩
    ⟨-15, [(9, 9), (9, 9)], some 2, none⟩ 1 7 rfl rfl rfl (by decide)
    (by
      intro j hj
      interval_cases j
      exact ⟨rfl, ⟨true, by decide⟩, rfl⟩)
    rfl (by decide)

theorem round_with_subset_narrows_both_views_witness :
    (nine_rows.add_subset [2, 5]).get_num_vectors = 2 ∧
      (BinaryLabels.add_subset ⟨[1, -1, -1, 1, -1, -1, 1, -1, -1], ⟨[]⟩⟩ [2, 5]).get_num_labels
        = 2 ∧
      train_round scripted recorder (machine_in_loop [[2, 5]]) (BinaryLabels.sized 9) =
        .ret ⟨[1, -1, -1, 1, -1, -1, 1, -1, -1], ⟨[]⟩⟩
          { m_multiclass_strategy := some ⟨3, [0, 1, 2, 0, 1, 2, 0, 1, 2], [], 1⟩,
            m_machine := some ⟨-9, [(2, 2)], none, none⟩,
            m_labels := some three_classes,
            m_machines := [submodel (-9)],
            m_features := some nine_rows } :=
  have h := round_with_subset_narrows_both_views scripted recorder
    (machine_in_loop [[2, 5]]) (BinaryLabels.sized 9) (started_script [[2, 5]])
    ⟨3, [0, 1, 2, 0, 1, 2, 0, 1, 2], [], 1⟩ fresh_learner nine_rows
    [1, -1, -1, 1, -1, -1, 1, -1, -1] [2, 5] rfl rfl rfl (by decide) (by decide)
  ⟨h.2.2.1, h.2.2.2.1, h.2.1.trans (by decide)⟩

theorem round_without_subset_keeps_views_witness :
    prepare_round scripted (machine_in_loop [[]]) (BinaryLabels.sized 9) =
      .ret (⟨[1, -1, -1, 1, -1, -1, 1, -1, -1], ⟨[]⟩⟩, [])
        { m_multiclass_strategy := some ⟨3, [0, 1, 2, 0, 1, 2, 0, 1, 2], [], 1⟩,
          m_machine := some fresh_learner,
          m_labels := some three_classes,
          m_machines := [],
          m_features := some nine_rows } :=
  (round_without_subset_keeps_views scripted recorder (machine_in_loop [[]])
    (BinaryLabels.sized 9) (started_script [[]])
    ⟨3, [0, 1, 2, 0, 1, 2, 0, 1, 2], [], 1⟩ fresh_learner nine_rows
    [1, -1, -1, 1, -1, -1, 1, -1, -1] rfl rfl rfl (by decide)).1

/-- C4 (counterexample): no base learner is bound and the registry holds one submodel of an
earlier pass.  `train_machine` does not look at the learner before the loop: with a strategy
that asks for no round it returns `true`, with one round it dereferences the null learner.
The check `init_machine_for_train` raises the configuration error and leaves the one
submodel in the registry. -/
theorem train_without_learner_runs :
    (machine_with [] none [submodel 5]).m_machine = none ∧
      (∃ self1, train_machine scripted recorder 10 (machine_with [] none [submodel 5])
        (some (.dot nine_rows)) = .ret true self1) ∧
      train_machine scripted recorder 10 (machine_with [[]] none [submodel 5])
        (some (.dot nine_rows)) = .null_deref ∧
      (∃ self1, init_machine_for_train (machine_with [] none [submodel 5])
          (some (.dot nine_rows)) =
          .raised (.configuration "No machine given in Multiclass constructor") self1 ∧
        self1.m_machines.length = 1) :=
  ⟨rfl, ⟨_, rfl⟩, rfl, _, rfl, rfl⟩

theorem init_machine_for_train_without_learner_witness :
    init_machine_for_train (machine_with [] none [submodel 5]) (some (.dot nine_rows)) =
      .raised (.configuration "No machine given in Multiclass constructor")
        (machine_with [] none [submodel 5]) :=
  init_machine_for_train_without_learner (machine_with [] none [submodel 5])
    (some (.dot nine_rows)) rfl

/-- C5 (counterexample): no strategy is bound and no features are bound; `train_machine`
raises the configuration error, and afterwards `get_features` returns the supplied
features instead of what it returned before the call. -/
theorem train_without_strategy_rebinds_features :
    get_features no_strategy_machine = none ∧
      ∃ self1, train_machine scripted recorder 10 no_strategy_machine
          (some (.dot nine_rows)) =
          .raised (.configuration "Multiclass strategy not set") self1 ∧
        get_features self1 = some nine_rows ∧
        get_features self1 ≠ get_features no_strategy_machine :=
  ⟨rfl, _, rfl, rfl, by decide⟩

theorem train_without_strategy_witness :
    train_machine scripted recorder 10 no_strategy_machine (some (.dot nine_rows)) =
      .raised (.configuration "Multiclass strategy not set")
        { no_strategy_machine with m_features := some nine_rows } :=
  train_without_strategy scripted recorder 10 no_strategy_machine nine_rows rfl

/-- C10 (counterexample): with no features bound, `get_num_rhs_vectors` is a null dereference
and not a raised configuration error. -/
theorem get_num_rhs_vectors_unbound :
    is_ready no_strategy_machine = false ∧
      get_num_rhs_vectors no_strategy_machine = .null_deref ∧
      ∀ msg s, get_num_rhs_vectors no_strategy_machine ≠ .raised (.configuration msg) s :=
  ⟨rfl, rfl, by intro msg s h; cases h⟩

theorem get_num_rhs_vectors_by_readiness_witness :
    get_num_rhs_vectors trained_three_rounds = .ret 9 trained_three_rounds ∧
      get_num_rhs_vectors no_strategy_machine = .null_deref :=
  ⟨by
      obtain ⟨f, hf, h⟩ := (get_num_rhs_vectors_by_readiness trained_three_rounds).1 rfl
      rw [h]
      have : f = nine_rows := (Option.some.inj hf).symm
      subst this
      rfl,
    ((get_num_rhs_vectors_by_readiness no_strategy_machine).2 rfl).2⟩

end runs

end shogun
